import Mathlib

/-!
# Bulk (Epiphany backend): participant runtime, host orchestrator, partitionings

A shallow embedding of

* `backends/epiphany/src/world_state.cpp` (participant side: constructor,
  `sync`, `barrier`, `barrier_init_`),
* `include/bulk/epiphany/src/environment_provider.cpp` (host side: `spawn`,
  its poll loop, `set_core_syncstate_`),
* `include/bulk/partitionings/partitioning.hpp` (`rectangular_partitioning`),

followed by the properties established about them.

Conventions.  A C array `a[N]` is a function `Nat → α` of which the code only
touches the indices below `N`.  A C++ `int` is an `Int` and every arithmetic
result is passed through `int32`, the two's complement wrap.  Objects reached
through a pointer (`var_slot::base`, `queue_slot::base`) are stored in place
as `Option`, `none` being the null pointer.  Classes, constants and helpers
declared in headers outside the translated files are parameters.
-/

namespace Bulk

/-- Two's complement wrap of a mathematical integer into the range of a
32-bit `int`. -/
def int32 (z : Int) : Int := (z + 2 ^ 31) % 2 ^ 32 - 2 ^ 31

/-- The loop `for (i = 0; i < n; ++i) body(i)` run on a state. -/
def for_upto {σ : Type} (n : Nat) (body : Nat → σ → σ) (s : σ) : σ :=
  (List.range n).foldl (fun st i => body i st) s

/-- Payload bytes of a serialized value. -/
abbrev Bytes := List Nat

namespace epiphany

/-! ## Participant runtime: slot tables and `sync` -/

/-- Entry of `world_state::var_list_`: `base` points to the registered
variable (null when the slot is free), `receiveBuffer` holds the bytes a
remote participant wrote for this superstep, `do_put` says that it did. -/
structure var_slot (V : Type) where
  base : Option V
  size : Nat
  do_put : Int
  receiveBuffer : Bytes

/-- Entry of `world_state::queue_list_`: `base` points to the registered
queue, `receiveBuffers` is the vector of `(payload, size)` pairs received
since the last superstep, oldest first. -/
structure queue_slot (Q : Type) where
  base : Option Q
  receiveBuffers : List (Bytes × Nat)

/-- The virtual member functions that `sync` calls on the objects behind
`base`.  Their classes live in `bulk/variable.hpp` and `bulk/messages.hpp`;
here they are arbitrary state transformers on the variable type `V` and the
queue type `Q`. -/
structure object_calls (V Q : Type) where
  deserialize_put : Nat → Bytes → V → V
  clear_ : Q → Q
  deserialize_push : Nat → Bytes → Q → Q

/-- Address of a barrier flag: cell `slot` of `sync_barrier_` on core `core`.
This is what `transform_address_local_(&sync_barrier_[slot], core)` denotes. -/
structure flag_addr where
  core : Nat
  slot : Nat
deriving DecidableEq, Repr

/-- The members of `world_state` that the translated functions use. -/
structure world_state (V Q : Type) where
  local_pid_ : Int
  nprocs_ : Int
  coreids_ : Nat → Nat
  sync_barrier_ : Nat → Int
  sync_barrier_tgt_ : Nat → Option flag_addr
  syncstate_ : Int
  var_list_ : Nat → var_slot V
  queue_list_ : Nat → queue_slot Q

/-- Body of the first loop of `sync` on one slot: a registered variable with
`do_put` set receives `deserialize_put(size, receiveBuffer)`; `do_put` of a
registered variable is reset. -/
def sync_var_slot {V Q : Type} (C : object_calls V Q) (v : var_slot V) : var_slot V :=
  match v.base with
  | none => v
  | some b =>
    let b1 := if v.do_put ≠ 0 then C.deserialize_put v.size v.receiveBuffer b else b
    { v with base := some b1, do_put := 0 }

/-- Body of the second loop of `sync` on one slot: a registered queue is
cleared, then every buffered pair `p` is handed to
`deserialize_push(p.second, p.first)` in vector order, then the vector is
cleared. -/
def sync_queue_slot {V Q : Type} (C : object_calls V Q) (rq : queue_slot Q) : queue_slot Q :=
  match rq.base with
  | none => rq
  | some q =>
    let q1 := rq.receiveBuffers.foldl (fun acc p => C.deserialize_push p.2 p.1 acc) (C.clear_ q)
    { base := some q1, receiveBuffers := [] }

/-- The function `world_state::sync`, with `MAX_VARS` the capacity of both slot tables. -/
def sync {V Q : Type} (C : object_calls V Q) (MAX_VARS : Nat) (w : world_state V Q) :
    world_state V Q :=
  let w1 := for_upto MAX_VARS
    (fun i st => { st with var_list_ := Function.update st.var_list_ i (sync_var_slot C (st.var_list_ i)) }) w
  for_upto MAX_VARS
    (fun i st => { st with queue_list_ := Function.update st.queue_list_ i (sync_queue_slot C (st.queue_list_ i)) }) w1

/-- The zero-initialised `world_state` object (it lies in `.bss`). -/
def zero_world (V Q : Type) : world_state V Q :=
  { local_pid_ := 0, nprocs_ := 0, coreids_ := fun _ => 0, sync_barrier_ := fun _ => 0,
    sync_barrier_tgt_ := fun _ => none, syncstate_ := 0,
    var_list_ := fun _ => { base := none, size := 0, do_put := 0, receiveBuffer := [] },
    queue_list_ := fun _ => { base := none, receiveBuffers := [] } }

/-- Modelled from the spec: what the queue class of `bulk/messages.hpp`
(outside the translated files) promises about the two calls.  `contents` is
the queue's visible contents, `decode size data` the message serialized in
the first `size` bytes at `data`.  "Clear the queue's visible contents":
after `clear_` they are empty; "deserialize-push": the decoded message is
added behind the messages already there. -/
structure queue_contract {V Q : Type} (C : object_calls V Q) (M : Type) where
  contents : Q → List M
  decode : Nat → Bytes → M
  clear_contents : ∀ q, contents (C.clear_ q) = []
  push_contents : ∀ size data q,
    contents (C.deserialize_push size data q) = contents q ++ [decode size data]

/-- Visible contents of the queue registered in a slot, if there is one. -/
def visible {V Q M : Type} {C : object_calls V Q} (K : queue_contract C M)
    (rq : queue_slot Q) : Option (List M) :=
  rq.base.map K.contents

/-- Modelled from the spec: the plainest objects with these calls.  A
variable is the bytes of its value and `deserialize_put` overwrites it with
the first `size` received bytes; a queue is the list of its messages, a
message being the first `size` bytes of its payload. -/
def byte_objects : object_calls Bytes (List Bytes) :=
  { deserialize_put := fun size data _ => data.take size,
    clear_ := fun _ => [],
    deserialize_push := fun size data q => q ++ [data.take size] }

/-- The queue of `byte_objects` keeps the contract. -/
def byte_contract : queue_contract byte_objects Bytes :=
  { contents := fun q => q,
    decode := fun size data => data.take size,
    clear_contents := fun _ => rfl,
    push_contents := fun _ _ _ => rfl }

/-- A participant with one registered variable (slot 0, value `[7]`, stale
bytes in its receive buffer, `do_put` clear) and one registered queue
(slot 1) that shows the message `[5]` and has nothing buffered. -/
def quiet_world : world_state Bytes (List Bytes) :=
  { (zero_world Bytes (List Bytes)) with
    var_list_ := Function.update (zero_world Bytes (List Bytes)).var_list_ 0
      { base := some [7], size := 1, do_put := 0, receiveBuffer := [9] },
    queue_list_ := Function.update (zero_world Bytes (List Bytes)).queue_list_ 1
      { base := some [[5]], receiveBuffers := [] } }

/-- The participant of `quiet_world` after two pushes to its queue arrived:
first the message `[1, 2]`, then the message `[3]`. -/
def busy_world : world_state Bytes (List Bytes) :=
  { quiet_world with
    queue_list_ := Function.update quiet_world.queue_list_ 1
      { base := some [[5]], receiveBuffers := [([1, 2, 0], 2), ([3], 1)] } }

/-! ## Shared communication buffer and host orchestrator -/

/-- Numeric values of `enum SYNCSTATE` (declared with the communication buffer
in a header outside the translated files).  `COUNT` is the number of
enumerators and the length of the `counters` array of the poll loop. -/
structure SYNCSTATE where
  INIT : Int
  RUN : Int
  SYNC : Int
  MESSAGE : Int
  CONTINUE : Int
  FINISH : Int
  ABORT : Int
  COUNT : Int
deriving DecidableEq, Repr

/-- Every enumerator is a valid index of `counters[COUNT]`. -/
def SYNCSTATE.in_range (E : SYNCSTATE) : Prop :=
  (0 ≤ E.INIT ∧ E.INIT < E.COUNT) ∧ (0 ≤ E.RUN ∧ E.RUN < E.COUNT) ∧
  (0 ≤ E.SYNC ∧ E.SYNC < E.COUNT) ∧ (0 ≤ E.MESSAGE ∧ E.MESSAGE < E.COUNT) ∧
  (0 ≤ E.CONTINUE ∧ E.CONTINUE < E.COUNT) ∧ (0 ≤ E.FINISH ∧ E.FINISH < E.COUNT) ∧
  (0 ≤ E.ABORT ∧ E.ABORT < E.COUNT)

instance (E : SYNCSTATE) : Decidable E.in_range := by
  unfold SYNCSTATE.in_range; infer_instance

/-- The fields of the communication buffer that the translated code reads or
writes.  `syncstate` is the array `int8_t syncstate[NPROCS]`, `syncstate_ptr`
the core-local address of the participant's `syncstate_`.  The field
`remotetimer` is a `float` and is left out. -/
structure combuf where
  nprocs : Int
  syncstate : Nat → Int
  syncstate_ptr : Nat
  msgbuf : String

/-- What the host does that is visible outside its own memory: lines written
to `std::cerr` / `stdout` and calls into the hardware abstraction layer, in
the order in which `spawn` performs them. -/
inductive event where
  | err_not_initialized
  | err_processors (processors : Int)
  | err_no_image (path : String)
  | load_group (path : String) (rows cols : Int)
  | err_load
  | start_group
  | err_start
  | err_corrupted (i : Nat) (s : Int)
  | message (i : Nat) (text : String)
  | write_core (row col : Int) (dst : Nat) (value : Int)
  | err_write
  | host_sync
  | aborted
deriving DecidableEq, Repr

/-- Answers of the collaborators that `spawn` calls: `access(path, R_OK)`,
`e_load_group`, `e_start_group` (true for success) and the byte count
returned by `e_write` for a core `(row, col)`. -/
structure hal where
  access_ok : String → Bool
  load_ok : String → Bool
  start_ok : Bool
  write_ret : Int → Int → Int

/-- The members of `provider` used by `spawn`, together with the record
`trace` of the events it has produced. -/
structure provider where
  env_initialized_ : Int
  nprocs_used_ : Int
  rows_ : Int
  cols_ : Int
  e_directory_ : String
  e_fullpath_ : String
  combuf_ : combuf
  trace : List event

/-- Append one event to the record. -/
def provider.log (h : provider) (e : event) : provider :=
  { h with trace := h.trace ++ [e] }

/-- The function `provider::set_core_syncstate_`: the shared slot of `pid`
receives `CONTINUE` (whatever `state` is), then `state` is written to the
core at row `pid / cols_`, column `pid % cols_`, at address `syncstate_ptr`;
a short write is reported. -/
def set_core_syncstate_ (E : SYNCSTATE) (H : hal) (h : provider) (pid : Nat) (state : Int) :
    provider :=
  let cb := { h.combuf_ with syncstate := Function.update h.combuf_.syncstate pid E.CONTINUE }
  let h1 := { h with combuf_ := cb }
  let dst := h1.combuf_.syncstate_ptr
  let row := Int.tdiv (pid : Int) h1.cols_
  let col := Int.tmod (pid : Int) h1.cols_
  let h2 := h1.log (event.write_core row col dst state)
  if H.write_ret row col ≠ 1 then h2.log event.err_write else h2

/-- State of one poll iteration while the slots are scanned: the provider,
the array `counters[SYNCSTATE::COUNT]` and the variable `extmem_corrupted`. -/
structure scan_state where
  host : provider
  counters : Int → Int
  extmem_corrupted : Int

/-- The statement `if (s >= 0 && s < SYNCSTATE::COUNT) counters[s]++; else ...`
of the poll iteration: a value in range is counted, any other value bumps
`extmem_corrupted` and is reported while that counter is at most 32. -/
def count_slot (E : SYNCSTATE) (i : Nat) (s : Int) (st : scan_state) : scan_state :=
  if 0 ≤ s ∧ s < E.COUNT then
    { st with counters := Function.update st.counters s (int32 (st.counters s + 1)) }
  else
    let c := int32 (st.extmem_corrupted + 1)
    { st with
      extmem_corrupted := c,
      host := if c ≤ 32 then st.host.log (event.err_corrupted i s) else st.host }

/-- Body of the loop `for (i = 0; i < NPROCS; i++)` of the poll iteration:
read slot `i`, count it, and if it reads `MESSAGE` print the message buffer
and release participant `i`. -/
def scan_slot (E : SYNCSTATE) (H : hal) (i : Nat) (st : scan_state) : scan_state :=
  let s := st.host.combuf_.syncstate i
  let st1 := count_slot E i s st
  if s = E.MESSAGE then
    let h1 := st1.host.log (event.message i st1.host.combuf_.msgbuf)
    { st1 with host := set_core_syncstate_ E H h1 i E.CONTINUE }
  else st1

/-- How one poll iteration ends: `again` (next iteration), `exit_abort`
(the `break` under `counters[ABORT]`) or `exit_finish` (the `break` under
`counters[FINISH] == nprocs_used_`). -/
inductive poll_exit where
  | again
  | exit_abort
  | exit_finish
deriving DecidableEq, Repr

/-- Scan of all slots from fresh counters, the first half of an iteration. -/
def scan_all (E : SYNCSTATE) (NPROCS : Nat) (H : hal) (h : provider) (extmem_corrupted : Int) :
    scan_state :=
  for_upto NPROCS (scan_slot E H)
    { host := h, counters := fun _ => 0, extmem_corrupted := extmem_corrupted }

/-- One iteration of the main program loop of `spawn`, on the buffer
contents found at its start.  `update_remote_timer_` and `microsleep_` only
touch the `float` timer and the clock and are left out.  The result is the
provider, the new value of `extmem_corrupted` and how the iteration ends. -/
def poll_iteration (E : SYNCSTATE) (NPROCS : Nat) (H : hal) (h : provider)
    (extmem_corrupted : Int) : provider × Int × poll_exit :=
  let st := scan_all E NPROCS H h extmem_corrupted
  let h1 :=
    if st.counters E.SYNC = st.host.nprocs_used_ then
      for_upto st.host.nprocs_used_.toNat
        (fun i hh => set_core_syncstate_ E H hh i E.CONTINUE) (st.host.log event.host_sync)
    else st.host
  if st.counters E.ABORT ≠ 0 then (h1.log event.aborted, st.extmem_corrupted, poll_exit.exit_abort)
  else if st.counters E.FINISH = h1.nprocs_used_ then (h1, st.extmem_corrupted, poll_exit.exit_finish)
  else (h1, st.extmem_corrupted, poll_exit.again)

/-- How a call of `spawn` ends.  `still_polling` means that the poll loop has
not left after the iterations the model was given. -/
inductive spawn_exit where
  | not_valid
  | no_image
  | load_failed
  | start_failed
  | loop_left (how : poll_exit)
  | still_polling
deriving DecidableEq, Repr

/-- The main program loop: before iteration `k` the participants have
changed the buffer to `env k buffer`; the loop runs at most `fuel`
iterations, starting with number `k`. -/
def poll_loop (E : SYNCSTATE) (NPROCS : Nat) (H : hal) (env : Nat → combuf → combuf) :
    Nat → Nat → provider → Int → provider × spawn_exit
  | 0, _, h, _ => (h, spawn_exit.still_polling)
  | fuel + 1, k, h, c =>
    match poll_iteration E NPROCS H { h with combuf_ := env k h.combuf_ } c with
    | (h1, _, poll_exit.exit_abort) =>
      ({ h1 with env_initialized_ := 3 }, spawn_exit.loop_left poll_exit.exit_abort)
    | (h1, _, poll_exit.exit_finish) =>
      ({ h1 with env_initialized_ := 3 }, spawn_exit.loop_left poll_exit.exit_finish)
    | (h1, c1, poll_exit.again) => poll_loop E NPROCS H env fuel (k + 1) h1 c1

/-- The function `provider::spawn`.  `is_valid` is the member function of
that name (declared in the header), `env` and `fuel` are as in `poll_loop`. -/
def spawn (E : SYNCSTATE) (NPROCS : Nat) (H : hal) (is_valid : provider → Bool)
    (env : Nat → combuf → combuf) (fuel : Nat)
    (h : provider) (processors : Int) (image_name : String) : provider × spawn_exit :=
  if ¬ is_valid h then (h.log event.err_not_initialized, spawn_exit.not_valid)
  else
    let h1 := { h with nprocs_used_ := processors }
    let h2 := if processors < 1 ∨ processors > (NPROCS : Int) then
      h1.log (event.err_processors processors) else h1
    let h3 := { h2 with e_fullpath_ := h2.e_directory_ ++ image_name }
    if ¬ H.access_ok h3.e_fullpath_ then
      (h3.log (event.err_no_image h3.e_fullpath_), spawn_exit.no_image)
    else
      let h4 := h3.log (event.load_group h3.e_fullpath_ h3.rows_ h3.cols_)
      if ¬ H.load_ok h3.e_fullpath_ then (h4.log event.err_load, spawn_exit.load_failed)
      else
        let h5 := { h4 with combuf_ := { h4.combuf_ with nprocs := h4.nprocs_used_ } }
        let h6 := for_upto NPROCS (fun i hh =>
          let cb := { hh.combuf_ with syncstate := Function.update hh.combuf_.syncstate i E.INIT }
          { hh with combuf_ := cb }) h5
        let h7 := h6.log event.start_group
        if ¬ H.start_ok then (h7.log event.err_start, spawn_exit.start_failed)
        else poll_loop E NPROCS H env fuel 0 h7 0

/-! ## Participant runtime: constructor and barrier -/

/-- The fields of e-lib's `e_group_config` that the constructor reads; they
are `unsigned` there. -/
structure group_config where
  core_row : Nat
  core_col : Nat
  group_rows : Nat
  group_cols : Nat
deriving DecidableEq, Repr

/-- The row-major id that the constructor assigns: `col + cols * row`. -/
def local_pid_of (row col cols : Int) : Int := int32 (col + int32 (cols * row))

/-- The coordinates at which `set_core_syncstate_` addresses participant
`pid`: row `pid / cols_` and column `pid % cols_`. -/
def host_coords (pid cols : Int) : Int × Int := (Int.tdiv pid cols, Int.tmod pid cols)

/-- The function `world_state::barrier_init_`: the hub (pid 0) points entry
`s` of its target table at cell 0 of core `s`, any other participant points
entry 0 at its own cell on the hub. -/
def barrier_init_ {V Q : Type} (w : world_state V Q) : world_state V Q :=
  if w.local_pid_ = 0 then
    for_upto w.nprocs_.toNat
      (fun s st =>
        let tgt := Function.update st.sync_barrier_tgt_ s (some { core := s, slot := 0 })
        { st with sync_barrier_tgt_ := tgt }) w
  else
    let tgt := Function.update w.sync_barrier_tgt_ 0 (some { core := 0, slot := w.local_pid_.toNat })
    { w with sync_barrier_tgt_ := tgt }

/-- The double loop of the constructor that fills `coreids_` row by row, the
counter `s` being the second component. -/
def fill_coreids (coreid_from_coords : Nat → Nat → Nat) (rows cols : Int)
    (coreids : Nat → Nat) : (Nat → Nat) × Nat :=
  for_upto rows.toNat
    (fun i acc => for_upto cols.toNat
      (fun j a => (Function.update a.1 a.2 (coreid_from_coords i j % 65536), a.2 + 1)) acc)
    (coreids, 0)

/-- Modelled from the spec: `write_syncstate_` is defined in the header of
`world_state`, which is outside the translated files.  The spec keeps the
sync state "in the shared Communication Buffer and mirrored into each
participant's local memory", so publishing a state writes the local
`syncstate_` and the participant's slot of the buffer. -/
def write_syncstate_ {V Q : Type} (state : Int) (w : world_state V Q) (cb : combuf) :
    world_state V Q × combuf :=
  ({ w with syncstate_ := state },
   { cb with syncstate := Function.update cb.syncstate w.local_pid_.toNat state })

/-- The constructor `world_state::world_state` run on the zero-initialised
object `w` and the buffer `cb`.  `syncstate_addr` is the address
`&syncstate_`; `init_dma_handlers` is an external collaborator without
effect on the members kept here. -/
def world_state_ctor {V Q : Type} (E : SYNCSTATE) (C : object_calls V Q) (MAX_VARS : Nat)
    (cfg : group_config) (coreid_from_coords : Nat → Nat → Nat) (syncstate_addr : Nat)
    (w : world_state V Q) (cb : combuf) : world_state V Q × combuf :=
  let row := int32 cfg.core_row
  let col := int32 cfg.core_col
  let cols := int32 cfg.group_cols
  let rows := int32 cfg.group_rows
  let w1 := { w with local_pid_ := local_pid_of row col cols, nprocs_ := int32 (cols * rows) }
  let w2 := { w1 with coreids_ := (fill_coreids coreid_from_coords rows cols w1.coreids_).1 }
  let w3 := barrier_init_ w2
  let cb1 := if w3.local_pid_ = 0 then { cb with syncstate_ptr := syncstate_addr } else cb
  let r := write_syncstate_ E.RUN w3 cb1
  (sync C MAX_VARS r.1, r.2)

/-- Where a participant stands inside `barrier()`: `flip` before its first
statement, `hub_poll i` / `hub_clear i` / `hub_release i` at the head of the
hub's three loops with loop variable `i`, `wait` at the polling loop of a
non-hub participant, `wait_clear` before it clears its slot, `returned`
after the last statement. -/
inductive barrier_pc where
  | flip
  | hub_poll (i : Nat)
  | hub_clear (i : Nat)
  | hub_release (i : Nat)
  | wait
  | wait_clear
  | returned
deriving DecidableEq, Repr

/-- All cores of the group: the memory of each, where each stands in
`barrier()`, and how often each has evaluated the condition of a polling
`while` loop. -/
structure grid (V Q : Type) where
  cores : Nat → world_state V Q
  pc : Nat → barrier_pc
  polls : Nat → Nat

/-- The store `*(a) = v` through a barrier target pointer. -/
def store_flag {V Q : Type} (g : grid V Q) (a : Option flag_addr) (v : Int) : grid V Q :=
  match a with
  | none => g
  | some a =>
    let w := g.cores a.core
    let w1 := { w with sync_barrier_ := Function.update w.sync_barrier_ a.slot v }
    { g with cores := Function.update g.cores a.core w1 }

/-- One step of participant `p` inside `world_state::barrier`: at most one
access to a barrier flag.  A polling loop that reads 0 stays where it is. -/
def barrier_step {V Q : Type} (p : Nat) (g : grid V Q) : grid V Q :=
  let w := g.cores p
  match g.pc p with
  | barrier_pc.flip =>
    if w.local_pid_ = 0 then
      { store_flag g (some { core := p, slot := w.local_pid_.toNat }) 1 with
        pc := Function.update g.pc p (barrier_pc.hub_poll 1) }
    else
      { store_flag g (w.sync_barrier_tgt_ 0) 1 with
        pc := Function.update g.pc p barrier_pc.wait }
  | barrier_pc.hub_poll i =>
    if (i : Int) < w.nprocs_ then
      if w.sync_barrier_ i = 0 then
        { g with polls := Function.update g.polls p (g.polls p + 1) }
      else
        { g with polls := Function.update g.polls p (g.polls p + 1),
                 pc := Function.update g.pc p (barrier_pc.hub_poll (i + 1)) }
    else { g with pc := Function.update g.pc p (barrier_pc.hub_clear 0) }
  | barrier_pc.hub_clear i =>
    if (i : Int) < w.nprocs_ then
      { store_flag g (some { core := p, slot := i }) 0 with
        pc := Function.update g.pc p (barrier_pc.hub_clear (i + 1)) }
    else { g with pc := Function.update g.pc p (barrier_pc.hub_release 1) }
  | barrier_pc.hub_release i =>
    if (i : Int) < w.nprocs_ then
      { store_flag g (w.sync_barrier_tgt_ i) 1 with
        pc := Function.update g.pc p (barrier_pc.hub_release (i + 1)) }
    else { g with pc := Function.update g.pc p barrier_pc.returned }
  | barrier_pc.wait =>
    if w.sync_barrier_ 0 = 0 then
      { g with polls := Function.update g.polls p (g.polls p + 1) }
    else
      { g with polls := Function.update g.polls p (g.polls p + 1),
               pc := Function.update g.pc p barrier_pc.wait_clear }
  | barrier_pc.wait_clear =>
    { store_flag g (some { core := p, slot := 0 }) 0 with
      pc := Function.update g.pc p barrier_pc.returned }
  | barrier_pc.returned => g

/-- An interleaving: the participants named in `sched` take one step each,
in that order. -/
def barrier_run {V Q : Type} (sched : List Nat) (g : grid V Q) : grid V Q :=
  sched.foldl (fun st p => barrier_step p st) g

/-- The group of `n` participants at the moment all of them call `barrier()`
for the first time: participant `p` has pid `p`, all flags are 0 and the
targets are those of `barrier_init_`. -/
def barrier_start (V Q : Type) (n : Nat) : grid V Q :=
  { cores := fun p => barrier_init_ { (zero_world V Q) with local_pid_ := p, nprocs_ := n },
    pc := fun _ => barrier_pc.flip,
    polls := fun _ => 0 }

/-- The constructor of participant `p` run to completion on the group. -/
def construct {V Q : Type} (E : SYNCSTATE) (C : object_calls V Q) (MAX_VARS : Nat)
    (cfg : Nat → group_config) (coreid_from_coords : Nat → Nat → Nat) (syncstate_addr : Nat)
    (p : Nat) (s : grid V Q × combuf) : grid V Q × combuf :=
  let r := world_state_ctor E C MAX_VARS (cfg p) coreid_from_coords syncstate_addr
    (s.1.cores p) s.2
  ({ s.1 with cores := Function.update s.1.cores p r.1 }, r.2)

/-! ## Observations on the host -/

/-- Number of slots below `NPROCS` whose value is `v`. -/
def tally (NPROCS : Nat) (slots : Nat → Int) (v : Int) : Nat :=
  (List.range NPROCS).countP (fun j => decide (slots j = v))

/-- The texts of the message lines tagged with participant `i`, in the order
in which they were printed. -/
def messages_of (i : Nat) (t : List event) : List String :=
  t.filterMap (fun e => match e with
    | event.message j text => if j = i then some text else none
    | _ => none)

/-- The values that `e_write` was asked to store at address `dst` of the core
to which the host maps participant `pid`, in the order of the calls. -/
def core_writes (cols : Int) (dst : Nat) (pid : Nat) (t : List event) : List Int :=
  t.filterMap (fun e => match e with
    | event.write_core row col d value =>
      if row = (host_coords pid cols).1 ∧ col = (host_coords pid cols).2 ∧ d = dst
      then some value else none
    | _ => none)

/-- A numbering of the enumerators, in the order in which the spec lists the
states, used for the concrete runs below. -/
def sample_codes : SYNCSTATE :=
  { INIT := 0, RUN := 1, SYNC := 2, MESSAGE := 3, CONTINUE := 4, FINISH := 5, ABORT := 6,
    COUNT := 7 }

/-- Collaborators that always succeed. -/
def sound_hal : hal :=
  { access_ok := fun _ => true, load_ok := fun _ => true, start_ok := true,
    write_ret := fun _ _ => 1 }

/-- An initialised provider on a 2 x 2 grid with `used` participants in use
and the given slot contents and message text. -/
def host_with (used : Int) (slots : Nat → Int) (text : String) : provider :=
  { env_initialized_ := 2, nprocs_used_ := used, rows_ := 2, cols_ := 2,
    e_directory_ := "./", e_fullpath_ := "",
    combuf_ := { nprocs := used, syncstate := slots, syncstate_ptr := 64, msgbuf := text },
    trace := [] }

/-- The slot contents given by a list, `INIT` of `sample_codes` beyond it. -/
def slots_of (l : List Int) : Nat → Int := fun i => l.getD i 0

/-- Modelled from the spec: `is_valid` is declared in the header of
`provider`, outside the translated files.  The spec has a staged
initialization counter; `initialize_` leaves it at 2 when every stage
succeeded, and that is taken as "valid". -/
def is_valid (h : provider) : Bool := decide (2 ≤ h.env_initialized_)

/-- The buffer before any participant has run: every slot holds `INIT` of
`sample_codes`. -/
def fresh_combuf : combuf :=
  { nprocs := 2, syncstate := fun _ => sample_codes.INIT, syncstate_ptr := 0, msgbuf := "" }

/-- Two cores in a 1 x 2 group right after loading (all of `world_state` is
zero), before either constructor has run. -/
def loaded_pair : grid Bytes (List Bytes) × combuf :=
  ({ cores := fun _ => zero_world Bytes (List Bytes),
     pc := fun _ => barrier_pc.flip,
     polls := fun _ => 0 },
   fresh_combuf)

/-- The `e_group_config` of core `p` in a 1 x 2 group. -/
def pair_config (p : Nat) : group_config :=
  { core_row := 0, core_col := p, group_rows := 1, group_cols := 2 }

/-! ## Invariant of the barrier -/

/-- Every one of the `n` participants has executed the first statement of
`barrier()`, the store to its flip flag. -/
def all_in {V Q : Type} (n : Nat) (g : grid V Q) : Prop :=
  ∀ r, r < n → g.pc r ≠ barrier_pc.flip

/-- What holds in every state that `n` participants can reach from
`barrier_start`: the ids and target tables are those set up at the start;
the hub is never in the code of the others and conversely; a flag set on
the hub for `q` means `q` has entered; the hub polling slot `i` has seen
all of `1 .. i-1` enter; and once the hub is past its polling loop, or some
other participant holds a release flag or is past its own polling loop,
all have entered. -/
structure barrier_inv {V Q : Type} (n : Nat) (g : grid V Q) : Prop where
  pid : ∀ c, (g.cores c).local_pid_ = (c : Int)
  nprocs : ∀ c, (g.cores c).nprocs_ = (n : Int)
  tgt_hub : ∀ s, s < n → (g.cores 0).sync_barrier_tgt_ s = some { core := s, slot := 0 }
  tgt_other : ∀ c, c ≠ 0 → (g.cores c).sync_barrier_tgt_ 0 = some { core := 0, slot := c }
  shape_hub : g.pc 0 ≠ barrier_pc.wait ∧ g.pc 0 ≠ barrier_pc.wait_clear
  shape_other : ∀ c, c ≠ 0 → ∀ i, g.pc c ≠ barrier_pc.hub_poll i ∧
    g.pc c ≠ barrier_pc.hub_clear i ∧ g.pc c ≠ barrier_pc.hub_release i
  flag_hub : ∀ q, 1 ≤ q → q < n → (g.cores 0).sync_barrier_ q ≠ 0 → g.pc q ≠ barrier_pc.flip
  polled : ∀ i, g.pc 0 = barrier_pc.hub_poll i →
    1 ≤ i ∧ ∀ q, 1 ≤ q → q < i → q < n → g.pc q ≠ barrier_pc.flip
  hub_past : g.pc 0 ≠ barrier_pc.flip → (∀ i, g.pc 0 ≠ barrier_pc.hub_poll i) → all_in n g
  flag_other : ∀ q, 1 ≤ q → (g.cores q).sync_barrier_ 0 ≠ 0 → all_in n g
  other_past : ∀ q, 1 ≤ q → (g.pc q = barrier_pc.wait_clear ∨ g.pc q = barrier_pc.returned) →
    all_in n g

end epiphany

end Bulk

namespace Bulk

namespace experimental

/-! ## Partitionings -/

/-- The type `index_type<D>` = `std::array<int, D>`, of which the components
below `D` are used. -/
abbrev index_type := Nat → Int

/-- The two ways in which a subclass of `rectangular_partitioning` provides
its origins: it overrides `origin(index_type<G>)` or it overrides
`origin(int)`; the form it does not override is inherited. -/
inductive origin_override where
  | by_grid (f : index_type → index_type)
  | by_flat (g : Int → index_type)

/-- The functions `util::flatten<G>` and `util::unflatten<G>` of
`util/indices.hpp`, which is outside the translated files. -/
structure indices where
  flatten : index_type → index_type → Int
  unflatten : index_type → Int → index_type

/-- An object of a subclass of `rectangular_partitioning<D, G>`. -/
structure rectangular_partitioning where
  D : Nat
  G : Nat
  global_size_ : index_type
  grid_size_ : index_type
  origin_impl : origin_override

/-- The call `origin(processor)` with a grid coordinate, after virtual
dispatch: the override if there is one, else the inherited body
`origin(util::flatten<G>(grid_size_, processor))`. -/
def rectangular_partitioning.origin_grid (U : indices) (P : rectangular_partitioning)
    (processor : index_type) : index_type :=
  match P.origin_impl with
  | origin_override.by_grid f => f processor
  | origin_override.by_flat g => g (U.flatten P.grid_size_ processor)

/-- The call `origin(processor)` with a flattened id, after virtual dispatch:
the override if there is one, else the inherited body
`origin(util::unflatten<G>(grid_size_, processor))`. -/
def rectangular_partitioning.origin (U : indices) (P : rectangular_partitioning)
    (processor : Int) : index_type :=
  match P.origin_impl with
  | origin_override.by_grid f => f (U.unflatten P.grid_size_ processor)
  | origin_override.by_flat g => g processor

/-- The function `rectangular_partitioning::local_to_global(xs, index_type<G>)`:
`global = origin(processor)`, then `global[d] += xs[d]` for every `d < D`. -/
def rectangular_partitioning.local_to_global_grid (U : indices) (P : rectangular_partitioning)
    (xs : index_type) (processor : index_type) : index_type :=
  for_upto P.D (fun d glob => Function.update glob d (int32 (glob d + xs d)))
    (P.origin_grid U processor)

/-- The function `multi_partitioning::local_to_global(xs, int)`, which
forwards to the grid form at `util::unflatten<G>(grid_size_, processor)`. -/
def rectangular_partitioning.local_to_global (U : indices) (P : rectangular_partitioning)
    (xs : index_type) (processor : Int) : index_type :=
  P.local_to_global_grid U xs (U.unflatten P.grid_size_ processor)

/-- Number of processors of a grid: the product of its first `G` extents. -/
def grid_volume (G : Nat) (grid_size : index_type) : Int :=
  ((List.range G).map grid_size).prod

/-- Modelled from the spec: `util::flatten` / `util::unflatten` are outside
the translated files; the spec calls them "row-major flatten/unflatten".
This is the row-major pair on a two-dimensional grid: `(r, c)` has id
`r * cols + c`, and id `p` has row `p / cols` and column `p % cols`. -/
def row_major_2 : indices :=
  { flatten := fun grid_size c => c 0 * grid_size 1 + c 1,
    unflatten := fun grid_size p => fun d =>
      if d = 0 then Int.tdiv p (grid_size 1) else if d = 1 then Int.tmod p (grid_size 1) else 0 }

/-- A 2 x 3 processor grid over a 20 x 15 domain cut into blocks of 10 x 5;
the subclass overrides `origin(int)`: processor `p` owns the block that
starts at `(10 * (p / 3), 5 * (p % 3))`. -/
def block_partitioning : rectangular_partitioning :=
  { D := 2, G := 2,
    global_size_ := fun d => if d = 0 then 20 else 15,
    grid_size_ := fun d => if d = 0 then 2 else 3,
    origin_impl := origin_override.by_flat
      (fun p d => if d = 0 then 10 * Int.tdiv p 3 else if d = 1 then 5 * Int.tmod p 3 else 0) }

end experimental

end Bulk

namespace Bulk

/-! ## Loops -/

theorem for_upto_zero {σ : Type} (body : Nat → σ → σ) (s : σ) : for_upto 0 body s = s := rfl

theorem for_upto_succ {σ : Type} (n : Nat) (body : Nat → σ → σ) (s : σ) :
    for_upto (n + 1) body s = body n (for_upto n body s) := by
  simp [for_upto, List.range_succ, List.foldl_append]

/-- A loop that rewrites cell `i` of an array from the old value of that cell
rewrites exactly the cells below the bound. -/
theorem for_upto_update {α : Type} (f : Nat → α → α) (n : Nat) (a : Nat → α) (j : Nat) :
    for_upto n (fun i st => Function.update st i (f i (st i))) a j
      = if j < n then f j (a j) else a j := by
  induction n with
  | zero => simp [for_upto_zero]
  | succ n ih =>
    rw [for_upto_succ]
    by_cases h : j = n
    · subst h
      have : for_upto j (fun i st => Function.update st i (f i (st i))) a j = a j := by
        rw [ih]; simp
      simp [this]
    · rw [Function.update_noteq h, ih]
      have : (j < n + 1) ↔ (j < n) := by omega
      simp [this]

/-- A loop whose body only rewrites one component of the state is a loop on
that component. -/
theorem for_upto_field {σ α : Type} (get : σ → α) (set : α → σ → σ)
    (hgs : ∀ a s, get (set a s) = a) (hss : ∀ a b s, set a (set b s) = set a s)
    (body : Nat → α → α) (n : Nat) (s : σ) (hn : 0 < n) :
    for_upto n (fun i st => set (body i (get st)) st) s = set (for_upto n body (get s)) s := by
  induction n with
  | zero => omega
  | succ n ih =>
    rw [for_upto_succ, for_upto_succ]
    rcases Nat.eq_zero_or_pos n with h0 | hpos
    · subst h0; simp [for_upto_zero]
    · rw [ih hpos, hgs, hss]

theorem int32_of_range (z : Int) (h1 : -2147483648 ≤ z) (h2 : z < 2147483648) :
    int32 z = z := by
  unfold int32
  norm_num
  omega

namespace epiphany

/-! ## `sync` slot by slot -/

theorem sync_var_list_ {V Q : Type} (C : object_calls V Q) (MAX_VARS : Nat)
    (w : world_state V Q) (j : Nat) :
    (sync C MAX_VARS w).var_list_ j
      = if j < MAX_VARS then sync_var_slot C (w.var_list_ j) else w.var_list_ j := by
  rcases Nat.eq_zero_or_pos MAX_VARS with h0 | hpos
  · subst h0; simp [sync, for_upto_zero]
  · unfold sync
    have h1 := for_upto_field (fun st : world_state V Q => st.var_list_)
      (fun a st => { st with var_list_ := a }) (fun _ _ => rfl) (fun _ _ _ => rfl)
      (fun i a => Function.update a i (sync_var_slot C (a i))) MAX_VARS w hpos
    have h2 := fun w1 => for_upto_field (fun st : world_state V Q => st.queue_list_)
      (fun a st => { st with queue_list_ := a }) (fun _ _ => rfl) (fun _ _ _ => rfl)
      (fun i a => Function.update a i (sync_queue_slot C (a i))) MAX_VARS w1 hpos
    simp only at h1 h2 ⊢
    rw [h1, h2]
    simp only
    exact for_upto_update (fun _ v => sync_var_slot C v) MAX_VARS w.var_list_ j

theorem sync_queue_list_ {V Q : Type} (C : object_calls V Q) (MAX_VARS : Nat)
    (w : world_state V Q) (j : Nat) :
    (sync C MAX_VARS w).queue_list_ j
      = if j < MAX_VARS then sync_queue_slot C (w.queue_list_ j) else w.queue_list_ j := by
  rcases Nat.eq_zero_or_pos MAX_VARS with h0 | hpos
  · subst h0; simp [sync, for_upto_zero]
  · unfold sync
    have h1 := for_upto_field (fun st : world_state V Q => st.var_list_)
      (fun a st => { st with var_list_ := a }) (fun _ _ => rfl) (fun _ _ _ => rfl)
      (fun i a => Function.update a i (sync_var_slot C (a i))) MAX_VARS w hpos
    have h2 := fun w1 => for_upto_field (fun st : world_state V Q => st.queue_list_)
      (fun a st => { st with queue_list_ := a }) (fun _ _ => rfl) (fun _ _ _ => rfl)
      (fun i a => Function.update a i (sync_queue_slot C (a i))) MAX_VARS w1 hpos
    simp only at h1 h2 ⊢
    rw [h1, h2]
    simp only
    exact for_upto_update (fun _ v => sync_queue_slot C v) MAX_VARS w.queue_list_ j

/-- The function `sync` changes nothing but the two slot tables. -/
theorem sync_frame {V Q : Type} (C : object_calls V Q) (MAX_VARS : Nat) (w : world_state V Q) :
    (sync C MAX_VARS w).local_pid_ = w.local_pid_ ∧ (sync C MAX_VARS w).nprocs_ = w.nprocs_ ∧
    (sync C MAX_VARS w).coreids_ = w.coreids_ ∧
    (sync C MAX_VARS w).sync_barrier_ = w.sync_barrier_ ∧
    (sync C MAX_VARS w).sync_barrier_tgt_ = w.sync_barrier_tgt_ ∧
    (sync C MAX_VARS w).syncstate_ = w.syncstate_ := by
  rcases Nat.eq_zero_or_pos MAX_VARS with h0 | hpos
  · subst h0; simp [sync, for_upto_zero]
  · unfold sync
    have h1 := for_upto_field (fun st : world_state V Q => st.var_list_)
      (fun a st => { st with var_list_ := a }) (fun _ _ => rfl) (fun _ _ _ => rfl)
      (fun i a => Function.update a i (sync_var_slot C (a i))) MAX_VARS w hpos
    have h2 := fun w1 => for_upto_field (fun st : world_state V Q => st.queue_list_)
      (fun a st => { st with queue_list_ := a }) (fun _ _ => rfl) (fun _ _ _ => rfl)
      (fun i a => Function.update a i (sync_queue_slot C (a i))) MAX_VARS w1 hpos
    simp only at h1 h2 ⊢
    rw [h1, h2]
    simp

theorem replay_contents {V Q M : Type} {C : object_calls V Q} (K : queue_contract C M)
    (bufs : List (Bytes × Nat)) (q : Q) :
    K.contents (bufs.foldl (fun acc p => C.deserialize_push p.2 p.1 acc) q)
      = K.contents q ++ bufs.map (fun p => K.decode p.2 p.1) := by
  induction bufs generalizing q with
  | nil => simp
  | cons b bs ih => simp [ih, K.push_contents]

/-- C2, as the code has it: when no registered variable has `do_put` set and
no registered queue has a buffered pair, `sync` leaves every variable slot
(storage included) exactly as it was, but it still clears every registered
queue: the queue object becomes `clear_` of the old one, its visible
contents are empty after the call, and its buffered list stays empty.
Unregistered queue slots are not touched. -/
theorem sync_without_puts_or_pushes {V Q M : Type} (C : object_calls V Q)
    (K : queue_contract C M) (MAX_VARS : Nat) (w : world_state V Q)
    (hv : ∀ i, i < MAX_VARS → (w.var_list_ i).base ≠ none → (w.var_list_ i).do_put = 0)
    (hq : ∀ i, i < MAX_VARS → (w.queue_list_ i).base ≠ none →
      (w.queue_list_ i).receiveBuffers = []) :
    (∀ i, (sync C MAX_VARS w).var_list_ i = w.var_list_ i) ∧
    (∀ i q, i < MAX_VARS → (w.queue_list_ i).base = some q →
      (sync C MAX_VARS w).queue_list_ i = { base := some (C.clear_ q), receiveBuffers := [] } ∧
      visible K ((sync C MAX_VARS w).queue_list_ i) = some []) ∧
    (∀ i, (w.queue_list_ i).base = none →
      (sync C MAX_VARS w).queue_list_ i = w.queue_list_ i) := by
  refine ⟨?_, ?_, ?_⟩
  · intro i
    rw [sync_var_list_]
    split
    · rename_i hi
      unfold sync_var_slot
      cases hb : (w.var_list_ i).base with
      | none => simp [hb]
      | some b =>
        have h0 := hv i hi (by simp [hb])
        simp only [hb, h0, ne_eq, not_true_eq_false, if_false]
        cases hw : w.var_list_ i with
        | mk base size do_put receiveBuffer =>
          rw [hw] at hb h0
          simp only at hb h0
          simp [hb, h0]
    · rfl
  · intro i q hi hb
    have hbuf := hq i hi (by simp [hb])
    have hs : (sync C MAX_VARS w).queue_list_ i
        = { base := some (C.clear_ q), receiveBuffers := [] } := by
      rw [sync_queue_list_, if_pos hi]
      unfold sync_queue_slot
      simp [hb, hbuf]
    refine ⟨hs, ?_⟩
    rw [hs]
    simp [visible, K.clear_contents]
  · intro i hb
    rw [sync_queue_list_]
    split
    · unfold sync_queue_slot
      simp [hb]
    · rfl

/-- Witness of C2: `quiet_world` meets both hypotheses; its variable keeps
`[7]`, its queue loses the message `[5]`. -/
theorem sync_without_puts_or_pushes_witness :
    (∀ i, (sync byte_objects 4 quiet_world).var_list_ i = quiet_world.var_list_ i) ∧
    (∀ i q, i < 4 → (quiet_world.queue_list_ i).base = some q →
      (sync byte_objects 4 quiet_world).queue_list_ i
        = { base := some (byte_objects.clear_ q), receiveBuffers := [] } ∧
      visible byte_contract ((sync byte_objects 4 quiet_world).queue_list_ i) = some []) ∧
    (∀ i, (quiet_world.queue_list_ i).base = none →
      (sync byte_objects 4 quiet_world).queue_list_ i = quiet_world.queue_list_ i) :=
  sync_without_puts_or_pushes byte_objects byte_contract 4 quiet_world
    (by decide) (by decide)

/-- C2 as stated fails: `quiet_world` has no put and no push pending, its
queue in slot 1 shows `[5]` before `sync` and nothing after it. -/
theorem sync_clears_quiet_queue :
    (∀ i, i < 4 → (quiet_world.var_list_ i).base ≠ none → (quiet_world.var_list_ i).do_put = 0) ∧
    (∀ i, i < 4 → (quiet_world.queue_list_ i).base ≠ none →
      (quiet_world.queue_list_ i).receiveBuffers = []) ∧
    visible byte_contract (quiet_world.queue_list_ 1) = some [[5]] ∧
    visible byte_contract ((sync byte_objects 4 quiet_world).queue_list_ 1) = some [] ∧
    visible byte_contract ((sync byte_objects 4 quiet_world).queue_list_ 1)
      ≠ visible byte_contract (quiet_world.queue_list_ 1) := by
  refine ⟨by decide, by decide, by decide, by decide, by decide⟩

/-- C3: for a registered queue slot, `sync` leaves the queue object that
results from `clear_` followed by one `deserialize_push(size, payload)` per
buffered pair, oldest first; hence the visible contents after `sync` are the
decoded buffered messages in arrival order, and the buffered list is empty. -/
theorem sync_replays_in_order {V Q M : Type} (C : object_calls V Q)
    (K : queue_contract C M) (MAX_VARS : Nat) (w : world_state V Q) (i : Nat) (q : Q)
    (hi : i < MAX_VARS) (hb : (w.queue_list_ i).base = some q) :
    (sync C MAX_VARS w).queue_list_ i
      = { base := some ((w.queue_list_ i).receiveBuffers.foldl
            (fun acc p => C.deserialize_push p.2 p.1 acc) (C.clear_ q)),
          receiveBuffers := [] } ∧
    visible K ((sync C MAX_VARS w).queue_list_ i)
      = some ((w.queue_list_ i).receiveBuffers.map (fun p => K.decode p.2 p.1)) ∧
    ((sync C MAX_VARS w).queue_list_ i).receiveBuffers = [] := by
  have hs : (sync C MAX_VARS w).queue_list_ i
      = { base := some ((w.queue_list_ i).receiveBuffers.foldl
            (fun acc p => C.deserialize_push p.2 p.1 acc) (C.clear_ q)),
          receiveBuffers := [] } := by
    rw [sync_queue_list_, if_pos hi]
    unfold sync_queue_slot
    simp [hb]
  refine ⟨hs, ?_, ?_⟩
  · rw [hs]
    simp [visible, replay_contents, K.clear_contents]
  · rw [hs]

/-- Witness of C3: the queue of `busy_world` showed `[5]` and has the pairs
for `[1, 2]` and `[3]` buffered; after `sync` it shows `[1, 2]`, `[3]`. -/
theorem sync_replays_in_order_witness :
    visible byte_contract ((sync byte_objects 4 busy_world).queue_list_ 1)
      = some [[1, 2], [3]] ∧
    ((sync byte_objects 4 busy_world).queue_list_ 1).receiveBuffers = [] :=
  ⟨(sync_replays_in_order byte_objects byte_contract 4 busy_world 1 [[5]]
      (by decide) (by decide)).2.1,
   (sync_replays_in_order byte_objects byte_contract 4 busy_world 1 [[5]]
      (by decide) (by decide)).2.2⟩


/-! ## Host: one slot, one scan -/

theorem log_trace (h : provider) (e : event) : (h.log e).trace = h.trace ++ [e] := rfl

theorem set_core_trace (E : SYNCSTATE) (H : hal) (h : provider) (pid : Nat) (state : Int) :
    (set_core_syncstate_ E H h pid state).trace
      = h.trace ++ (event.write_core (host_coords pid h.cols_).1 (host_coords pid h.cols_).2
          h.combuf_.syncstate_ptr state ::
          (if H.write_ret (host_coords pid h.cols_).1 (host_coords pid h.cols_).2 ≠ 1
            then [event.err_write] else [])) := by
  unfold set_core_syncstate_ host_coords
  simp only [provider.log]
  split <;> simp

theorem set_core_frame (E : SYNCSTATE) (H : hal) (h : provider) (pid : Nat) (state : Int) :
    (set_core_syncstate_ E H h pid state).nprocs_used_ = h.nprocs_used_ ∧
    (set_core_syncstate_ E H h pid state).cols_ = h.cols_ ∧
    (set_core_syncstate_ E H h pid state).combuf_.syncstate_ptr = h.combuf_.syncstate_ptr ∧
    (set_core_syncstate_ E H h pid state).combuf_.msgbuf = h.combuf_.msgbuf ∧
    (set_core_syncstate_ E H h pid state).combuf_.syncstate
      = Function.update h.combuf_.syncstate pid E.CONTINUE := by
  unfold set_core_syncstate_
  simp only [provider.log]
  split <;> simp

theorem messages_of_append (i : Nat) (t u : List event) :
    messages_of i (t ++ u) = messages_of i t ++ messages_of i u := by
  simp [messages_of, List.filterMap_append]

theorem core_writes_append (cols : Int) (dst pid : Nat) (t u : List event) :
    core_writes cols dst pid (t ++ u) = core_writes cols dst pid t ++ core_writes cols dst pid u := by
  simp [core_writes, List.filterMap_append]

/-- Participants are told apart by the coordinates the host computes. -/
theorem host_coords_inj (cols : Int) (p q : Nat)
    (h1 : (host_coords p cols).1 = (host_coords q cols).1)
    (h2 : (host_coords p cols).2 = (host_coords q cols).2) : p = q := by
  unfold host_coords at h1 h2
  simp only at h1 h2
  have hp := Int.tdiv_add_tmod (p : Int) cols
  have hq := Int.tdiv_add_tmod (q : Int) cols
  rw [h1, h2] at hp
  have : (p : Int) = (q : Int) := hp.symm.trans hq
  exact_mod_cast this

/-- The events of one release call, seen by the two observations. -/
theorem set_core_observed (E : SYNCSTATE) (H : hal) (h : provider) (pid : Nat) (state : Int)
    (i : Nat) :
    messages_of i (set_core_syncstate_ E H h pid state).trace = messages_of i h.trace ∧
    core_writes h.cols_ h.combuf_.syncstate_ptr i (set_core_syncstate_ E H h pid state).trace
      = core_writes h.cols_ h.combuf_.syncstate_ptr i h.trace
          ++ (if pid = i then [state] else []) := by
  rw [set_core_trace, messages_of_append, core_writes_append]
  constructor
  · split <;> simp [messages_of]
  · congr 1
    by_cases hpi : pid = i
    · subst hpi
      split <;> simp [core_writes]
    · have hne : ¬ ((host_coords pid h.cols_).1 = (host_coords i h.cols_).1 ∧
          (host_coords pid h.cols_).2 = (host_coords i h.cols_).2) := by
        intro hc
        exact hpi (host_coords_inj h.cols_ pid i hc.1 hc.2)
      split <;> simp [core_writes, hpi] <;> intro h1 h2 <;> exact absurd ⟨h1, h2⟩ hne


theorem count_slot_host (E : SYNCSTATE) (i : Nat) (s : Int) (st : scan_state) :
    (count_slot E i s st).host = st.host ∨
    (count_slot E i s st).host = st.host.log (event.err_corrupted i s) := by
  unfold count_slot
  split
  · exact Or.inl rfl
  · simp only
    split
    · exact Or.inr rfl
    · exact Or.inl rfl

theorem count_slot_counters (E : SYNCSTATE) (i : Nat) (s : Int) (st : scan_state) (v : Int) :
    (count_slot E i s st).counters v
      = if (0 ≤ s ∧ s < E.COUNT) ∧ v = s then int32 (st.counters v + 1) else st.counters v := by
  unfold count_slot
  by_cases hr : 0 ≤ s ∧ s < E.COUNT
  · rw [if_pos hr]
    by_cases hv : v = s
    · subst hv; simp [hr]
    · simp [hv, Function.update_noteq hv]
  · rw [if_neg hr]
    simp [hr]

/-- What one step of the scan does to the parts of the state that the
claims speak about. -/
theorem scan_slot_step (E : SYNCSTATE) (H : hal) (i : Nat) (st : scan_state) :
    (scan_slot E H i st).host.nprocs_used_ = st.host.nprocs_used_ ∧
    (scan_slot E H i st).host.cols_ = st.host.cols_ ∧
    (scan_slot E H i st).host.combuf_.syncstate_ptr = st.host.combuf_.syncstate_ptr ∧
    (scan_slot E H i st).host.combuf_.msgbuf = st.host.combuf_.msgbuf ∧
    (scan_slot E H i st).host.combuf_.syncstate
      = (if st.host.combuf_.syncstate i = E.MESSAGE
          then Function.update st.host.combuf_.syncstate i E.CONTINUE
          else st.host.combuf_.syncstate) ∧
    (∀ v, (scan_slot E H i st).counters v
      = if (0 ≤ st.host.combuf_.syncstate i ∧ st.host.combuf_.syncstate i < E.COUNT) ∧
            v = st.host.combuf_.syncstate i
        then int32 (st.counters v + 1) else st.counters v) ∧
    (∀ p, messages_of p (scan_slot E H i st).host.trace
      = messages_of p st.host.trace
          ++ (if st.host.combuf_.syncstate i = E.MESSAGE ∧ p = i
              then [st.host.combuf_.msgbuf] else [])) ∧
    (∀ p, core_writes st.host.cols_ st.host.combuf_.syncstate_ptr p (scan_slot E H i st).host.trace
      = core_writes st.host.cols_ st.host.combuf_.syncstate_ptr p st.host.trace
          ++ (if st.host.combuf_.syncstate i = E.MESSAGE ∧ p = i then [E.CONTINUE] else [])) := by
  have hc := count_slot_counters E i (st.host.combuf_.syncstate i) st
  have hh : ∀ hst : provider, (hst = st.host ∨
      hst = st.host.log (event.err_corrupted i (st.host.combuf_.syncstate i))) →
      hst.nprocs_used_ = st.host.nprocs_used_ ∧ hst.cols_ = st.host.cols_ ∧
      hst.combuf_ = st.host.combuf_ ∧
      (∀ p, messages_of p hst.trace = messages_of p st.host.trace) ∧
      (∀ p c d, core_writes c d p hst.trace = core_writes c d p st.host.trace) := by
    intro hst h
    rcases h with h | h
    · subst h; simp
    · subst h
      refine ⟨rfl, rfl, rfl, ?_, ?_⟩
      · intro p; rw [log_trace, messages_of_append]; simp [messages_of]
      · intro p c d; rw [log_trace, core_writes_append]; simp [core_writes]
  obtain ⟨h1, h2, h3, h4, h5⟩ := hh _ (count_slot_host E i (st.host.combuf_.syncstate i) st)
  unfold scan_slot
  simp only
  by_cases hm : st.host.combuf_.syncstate i = E.MESSAGE
  · rw [if_pos hm]
    simp only
    have hf := set_core_frame E H
      ((count_slot E i (st.host.combuf_.syncstate i) st).host.log
        (event.message i (count_slot E i (st.host.combuf_.syncstate i) st).host.combuf_.msgbuf))
      i E.CONTINUE
    have ho := set_core_observed E H
      ((count_slot E i (st.host.combuf_.syncstate i) st).host.log
        (event.message i (count_slot E i (st.host.combuf_.syncstate i) st).host.combuf_.msgbuf))
      i E.CONTINUE
    have hl : ∀ e, ((count_slot E i (st.host.combuf_.syncstate i) st).host.log e).nprocs_used_
        = st.host.nprocs_used_ ∧
        ((count_slot E i (st.host.combuf_.syncstate i) st).host.log e).cols_ = st.host.cols_ ∧
        ((count_slot E i (st.host.combuf_.syncstate i) st).host.log e).combuf_
          = st.host.combuf_ := fun e => ⟨h1, h2, h3⟩
    obtain ⟨f1, f2, f3, f4, f5⟩ := hf
    rw [(hl _).1] at f1
    rw [(hl _).2.1] at f2
    rw [(hl _).2.2] at f3 f4 f5
    refine ⟨f1, f2, f3, f4, ?_, ?_, ?_, ?_⟩
    · rw [f5, if_pos hm]
    · intro v; rw [hc v, hm]
    · intro p
      rw [(ho p).1, log_trace, messages_of_append, h4 p, h3]
      by_cases hp : p = i
      · subst hp; simp [messages_of, hm]
      · have hp2 : ¬ i = p := fun h => hp h.symm
        simp [messages_of, hp, hp2]
    · intro p
      have ho2 := (ho p).2
      rw [(hl _).2.1, (hl _).2.2] at ho2
      rw [ho2, log_trace, core_writes_append, h5 p]
      by_cases hp : p = i
      · subst hp; simp [core_writes, hm]
      · have hp2 : ¬ i = p := fun h => hp h.symm
        simp [core_writes, hp, hp2]
  · rw [if_neg hm]
    refine ⟨h1, h2, by rw [h3], by rw [h3], by rw [h3, if_neg hm], ?_, ?_, ?_⟩
    · intro v; rw [hc v]
    · intro p; rw [h4 p]; simp [hm]
    · intro p; rw [h5 p]; simp [hm]


theorem tally_succ (k : Nat) (slots : Nat → Int) (v : Int) :
    tally (k + 1) slots v = tally k slots v + (if slots k = v then 1 else 0) := by
  unfold tally
  rw [List.range_succ, List.countP_append]
  by_cases h : slots k = v <;> simp [h]

theorem tally_le (k : Nat) (slots : Nat → Int) (v : Int) : tally k slots v ≤ k := by
  unfold tally
  calc List.countP (fun j => decide (slots j = v)) (List.range k)
      ≤ (List.range k).length := List.countP_le_length _
    _ = k := List.length_range k

/-- The scan after its first `k` rounds: the counters are the tallies of the
first `k` slots, exactly the slots that read `MESSAGE` have been overwritten
with `CONTINUE`, and each of them has had one message line and one release
write. -/
theorem scan_rounds (E : SYNCSTATE) (H : hal) (h : provider) (c : Int) (k : Nat)
    (hk : k < 2147483648) :
    (for_upto k (scan_slot E H) { host := h, counters := fun _ => 0, extmem_corrupted := c }
      ).host.nprocs_used_ = h.nprocs_used_ ∧
    (for_upto k (scan_slot E H) { host := h, counters := fun _ => 0, extmem_corrupted := c }
      ).host.cols_ = h.cols_ ∧
    (for_upto k (scan_slot E H) { host := h, counters := fun _ => 0, extmem_corrupted := c }
      ).host.combuf_.syncstate_ptr = h.combuf_.syncstate_ptr ∧
    (for_upto k (scan_slot E H) { host := h, counters := fun _ => 0, extmem_corrupted := c }
      ).host.combuf_.msgbuf = h.combuf_.msgbuf ∧
    (∀ j, (for_upto k (scan_slot E H) { host := h, counters := fun _ => 0, extmem_corrupted := c }
      ).host.combuf_.syncstate j
        = if j < k ∧ h.combuf_.syncstate j = E.MESSAGE then E.CONTINUE
          else h.combuf_.syncstate j) ∧
    (∀ v, (for_upto k (scan_slot E H) { host := h, counters := fun _ => 0, extmem_corrupted := c }
      ).counters v
        = if 0 ≤ v ∧ v < E.COUNT then (tally k h.combuf_.syncstate v : Int) else 0) ∧
    (∀ p, messages_of p (for_upto k (scan_slot E H)
        { host := h, counters := fun _ => 0, extmem_corrupted := c }).host.trace
        = messages_of p h.trace
            ++ (if p < k ∧ h.combuf_.syncstate p = E.MESSAGE then [h.combuf_.msgbuf] else [])) ∧
    (∀ p, core_writes h.cols_ h.combuf_.syncstate_ptr p (for_upto k (scan_slot E H)
        { host := h, counters := fun _ => 0, extmem_corrupted := c }).host.trace
        = core_writes h.cols_ h.combuf_.syncstate_ptr p h.trace
            ++ (if p < k ∧ h.combuf_.syncstate p = E.MESSAGE then [E.CONTINUE] else [])) := by
  induction k with
  | zero => simp [for_upto_zero, tally]
  | succ k ih =>
    obtain ⟨a1, a2, a3, a4, a5, a6, a7, a8⟩ := ih (by omega)
    rw [for_upto_succ]
    generalize for_upto k (scan_slot E H)
      { host := h, counters := fun _ => 0, extmem_corrupted := c } = st at a1 a2 a3 a4 a5 a6 a7 a8 ⊢
    obtain ⟨s1, s2, s3, s4, s5, s6, s7, s8⟩ := scan_slot_step E H k st
    have hsk : st.host.combuf_.syncstate k = h.combuf_.syncstate k := by
      rw [a5 k]; simp
    rw [hsk] at s5 s6 s7 s8
    rw [a2, a3] at s8
    rw [a4] at s7
    refine ⟨s1.trans a1, s2.trans a2, s3.trans a3, s4.trans a4, ?_, ?_, ?_, ?_⟩
    · intro j
      rw [s5]
      by_cases hm : h.combuf_.syncstate k = E.MESSAGE
      · rw [if_pos hm]
        by_cases hj : j = k
        · subst hj; simp [hm]
        · rw [Function.update_noteq hj, a5 j]
          have : (j < k + 1) ↔ (j < k) := by omega
          simp [this]
      · rw [if_neg hm, a5 j]
        by_cases hj : j = k
        · subst hj; simp [hm]
        · have : (j < k + 1) ↔ (j < k) := by omega
          simp [this]
    · intro v
      rw [s6 v, a6 v, tally_succ]
      by_cases hv : v = h.combuf_.syncstate k
      · subst hv
        by_cases hr : 0 ≤ h.combuf_.syncstate k ∧ h.combuf_.syncstate k < E.COUNT
        · have hle := tally_le k h.combuf_.syncstate (h.combuf_.syncstate k)
          simp only [hr, and_self, if_true, true_and]
          rw [int32_of_range _ (by omega) (by omega)]
          push_cast
          rfl
        · simp [hr]
      · have hv2 : ¬ h.combuf_.syncstate k = v := fun e => hv e.symm
        simp [hv, hv2]
    · intro p
      rw [s7 p, a7 p, List.append_assoc]
      congr 1
      by_cases hp : p = k
      · subst hp; by_cases hm : h.combuf_.syncstate p = E.MESSAGE <;> simp [hm]
      · have : (p < k + 1) ↔ (p < k) := by omega
        simp [hp, this]
    · intro p
      rw [s8 p, a8 p, List.append_assoc]
      congr 1
      by_cases hp : p = k
      · subst hp; by_cases hm : h.combuf_.syncstate p = E.MESSAGE <;> simp [hm]
      · have : (p < k + 1) ↔ (p < k) := by omega
        simp [hp, this]


/-- The release loop `for (i = 0; i < nprocs_used_; i++)
set_core_syncstate_(i, CONTINUE)` after `m` rounds. -/
theorem release_rounds (E : SYNCSTATE) (H : hal) (h : provider) (m : Nat) :
    (for_upto m (fun i hh => set_core_syncstate_ E H hh i E.CONTINUE) h).nprocs_used_
      = h.nprocs_used_ ∧
    (for_upto m (fun i hh => set_core_syncstate_ E H hh i E.CONTINUE) h).cols_ = h.cols_ ∧
    (for_upto m (fun i hh => set_core_syncstate_ E H hh i E.CONTINUE) h).combuf_.syncstate_ptr
      = h.combuf_.syncstate_ptr ∧
    (∀ j, (for_upto m (fun i hh => set_core_syncstate_ E H hh i E.CONTINUE) h).combuf_.syncstate j
      = if j < m then E.CONTINUE else h.combuf_.syncstate j) ∧
    (∀ p, messages_of p (for_upto m (fun i hh => set_core_syncstate_ E H hh i E.CONTINUE) h).trace
      = messages_of p h.trace) ∧
    (∀ p, core_writes h.cols_ h.combuf_.syncstate_ptr p
        (for_upto m (fun i hh => set_core_syncstate_ E H hh i E.CONTINUE) h).trace
      = core_writes h.cols_ h.combuf_.syncstate_ptr p h.trace
          ++ (if p < m then [E.CONTINUE] else [])) := by
  induction m with
  | zero => simp [for_upto_zero]
  | succ m ih =>
    obtain ⟨a1, a2, a3, a4, a5, a6⟩ := ih
    rw [for_upto_succ]
    generalize for_upto m (fun i hh => set_core_syncstate_ E H hh i E.CONTINUE) h = g
      at a1 a2 a3 a4 a5 a6 ⊢
    obtain ⟨f1, f2, f3, _, f5⟩ := set_core_frame E H g m E.CONTINUE
    have ho := set_core_observed E H g m E.CONTINUE
    refine ⟨f1.trans a1, f2.trans a2, f3.trans a3, ?_, ?_, ?_⟩
    · intro j
      rw [f5]
      by_cases hj : j = m
      · subst hj; simp
      · rw [Function.update_noteq hj, a4 j]
        have : (j < m + 1) ↔ (j < m) := by omega
        simp [this]
    · intro p; rw [(ho p).1, a5 p]
    · intro p
      have h2 := (ho p).2
      rw [a2, a3] at h2
      rw [h2, a6 p, List.append_assoc]
      congr 1
      by_cases hp : p = m
      · subst hp; simp
      · have hp2 : ¬ m = p := fun e => hp e.symm
        have : (p < m + 1) ↔ (p < m) := by omega
        simp [hp2, this]

/-- One poll iteration in closed form.  With `slots` the buffer contents at
its start: how it ends, what the slots hold afterwards, which message lines
it prints and which release writes it issues. -/
theorem poll_iteration_spec (E : SYNCSTATE) (hE : E.in_range) (NPROCS : Nat)
    (hN : NPROCS < 2147483648) (H : hal) (h : provider) (c : Int) :
    (poll_iteration E NPROCS H h c).2.2
      = (if tally NPROCS h.combuf_.syncstate E.ABORT ≠ 0 then poll_exit.exit_abort
         else if (tally NPROCS h.combuf_.syncstate E.FINISH : Int) = h.nprocs_used_
           then poll_exit.exit_finish else poll_exit.again) ∧
    (∀ j, (poll_iteration E NPROCS H h c).1.combuf_.syncstate j
      = if (j < NPROCS ∧ h.combuf_.syncstate j = E.MESSAGE) ∨
            ((tally NPROCS h.combuf_.syncstate E.SYNC : Int) = h.nprocs_used_ ∧
              j < h.nprocs_used_.toNat)
        then E.CONTINUE else h.combuf_.syncstate j) ∧
    (∀ p, messages_of p (poll_iteration E NPROCS H h c).1.trace
      = messages_of p h.trace
          ++ (if p < NPROCS ∧ h.combuf_.syncstate p = E.MESSAGE
              then [h.combuf_.msgbuf] else [])) ∧
    (∀ p, core_writes h.cols_ h.combuf_.syncstate_ptr p (poll_iteration E NPROCS H h c).1.trace
      = core_writes h.cols_ h.combuf_.syncstate_ptr p h.trace
          ++ (if p < NPROCS ∧ h.combuf_.syncstate p = E.MESSAGE then [E.CONTINUE] else [])
          ++ (if (tally NPROCS h.combuf_.syncstate E.SYNC : Int) = h.nprocs_used_ ∧
                p < h.nprocs_used_.toNat then [E.CONTINUE] else [])) := by
  obtain ⟨_, _, hSYNC, _, _, hFIN, hAB⟩ := hE
  obtain ⟨a1, a2, a3, a4, a5, a6, a7, a8⟩ := scan_rounds E H h c NPROCS hN
  have cS := a6 E.SYNC
  have cF := a6 E.FINISH
  have cA := a6 E.ABORT
  rw [if_pos hSYNC] at cS
  rw [if_pos hFIN] at cF
  rw [if_pos hAB] at cA
  unfold poll_iteration scan_all
  generalize for_upto NPROCS (scan_slot E H)
    { host := h, counters := fun _ => 0, extmem_corrupted := c } = st
    at a1 a2 a3 a4 a5 a6 a7 a8 cS cF cA
  simp only
  -- the provider after the host-sync statement
  obtain ⟨r1, r2, r3, r4, r5, r6⟩ := release_rounds E H (st.host.log event.host_sync)
    st.host.nprocs_used_.toNat
  have hl1 : (st.host.log event.host_sync).nprocs_used_ = h.nprocs_used_ := a1
  have hl2 : (st.host.log event.host_sync).cols_ = h.cols_ := a2
  have hl3 : (st.host.log event.host_sync).combuf_.syncstate_ptr = h.combuf_.syncstate_ptr := a3
  have hl4 : (st.host.log event.host_sync).combuf_.syncstate = st.host.combuf_.syncstate := rfl
  have hl5 : ∀ p, messages_of p (st.host.log event.host_sync).trace
      = messages_of p st.host.trace := by
    intro p; rw [log_trace, messages_of_append]; simp [messages_of]
  have hl6 : ∀ p, core_writes h.cols_ h.combuf_.syncstate_ptr p
      (st.host.log event.host_sync).trace
      = core_writes h.cols_ h.combuf_.syncstate_ptr p st.host.trace := by
    intro p; rw [log_trace, core_writes_append]; simp [core_writes]
  rw [hl1] at r1
  rw [hl2] at r2 r6
  rw [hl3] at r3 r6
  simp only [hl4, hl5] at r4 r5
  simp only [hl6] at r6
  rw [cS, cA, cF, a1]
  have key : ∀ h1 : provider,
      h1 = (if (tally NPROCS h.combuf_.syncstate E.SYNC : Int) = h.nprocs_used_ then
        for_upto h.nprocs_used_.toNat (fun i hh => set_core_syncstate_ E H hh i E.CONTINUE)
          (st.host.log event.host_sync) else st.host) →
      h1.nprocs_used_ = h.nprocs_used_ ∧
      (∀ j, h1.combuf_.syncstate j
        = if (j < NPROCS ∧ h.combuf_.syncstate j = E.MESSAGE) ∨
              ((tally NPROCS h.combuf_.syncstate E.SYNC : Int) = h.nprocs_used_ ∧
                j < h.nprocs_used_.toNat)
          then E.CONTINUE else h.combuf_.syncstate j) ∧
      (∀ p, messages_of p h1.trace
        = messages_of p h.trace
            ++ (if p < NPROCS ∧ h.combuf_.syncstate p = E.MESSAGE
                then [h.combuf_.msgbuf] else [])) ∧
      (∀ p, core_writes h.cols_ h.combuf_.syncstate_ptr p h1.trace
        = core_writes h.cols_ h.combuf_.syncstate_ptr p h.trace
            ++ (if p < NPROCS ∧ h.combuf_.syncstate p = E.MESSAGE then [E.CONTINUE] else [])
            ++ (if (tally NPROCS h.combuf_.syncstate E.SYNC : Int) = h.nprocs_used_ ∧
                  p < h.nprocs_used_.toNat then [E.CONTINUE] else [])) := by
    intro h1 hh1
    by_cases hs : (tally NPROCS h.combuf_.syncstate E.SYNC : Int) = h.nprocs_used_
    · rw [if_pos hs] at hh1
      rw [a1] at r1 r4 r5 r6
      subst hh1
      refine ⟨r1, ?_, ?_, ?_⟩
      · intro j
        rw [r4 j, a5 j]
        by_cases hj : j < h.nprocs_used_.toNat
        · simp [hj, hs]
        · simp [hj]
      · intro p; rw [r5 p, a7 p]
      · intro p; rw [r6 p, a8 p]; simp [hs]
    · rw [if_neg hs] at hh1
      subst hh1
      refine ⟨a1, ?_, ?_, ?_⟩
      · intro j; rw [a5 j]; simp [hs]
      · intro p; rw [a7 p]
      · intro p; rw [a8 p]; simp [hs]
  obtain ⟨k1, k2, k3, k4⟩ := key _ rfl
  have hA : ((tally NPROCS h.combuf_.syncstate E.ABORT : Int) ≠ 0)
      ↔ tally NPROCS h.combuf_.syncstate E.ABORT ≠ 0 := by
    simp
  by_cases hab : tally NPROCS h.combuf_.syncstate E.ABORT ≠ 0
  · rw [if_pos (hA.mpr hab), if_pos hab]
    refine ⟨rfl, k2, ?_, ?_⟩
    · intro p; simp only; rw [log_trace, messages_of_append, k3 p]; simp [messages_of]
    · intro p; simp only; rw [log_trace, core_writes_append, k4 p]; simp [core_writes]
  · rw [if_neg (fun hx => hab (hA.mp hx)), if_neg hab]
    rw [k1]
    by_cases hf : (tally NPROCS h.combuf_.syncstate E.FINISH : Int) = h.nprocs_used_
    · rw [if_pos hf, if_pos hf]
      exact ⟨rfl, k2, k3, k4⟩
    · rw [if_neg hf, if_neg hf]
      exact ⟨rfl, k2, k3, k4⟩


/-! ## Host: the claims about one poll iteration -/

theorem tally_ne_zero (N : Nat) (slots : Nat → Int) (v : Int) (i : Nat) (hi : i < N)
    (hv : slots i = v) : tally N slots v ≠ 0 := by
  unfold tally
  have : 0 < List.countP (fun j => decide (slots j = v)) (List.range N) :=
    List.countP_pos_iff.mpr ⟨i, List.mem_range.mpr hi, by simp [hv]⟩
  omega

theorem poll_loop_exit (E : SYNCSTATE) (NPROCS : Nat) (H : hal) (env : Nat → combuf → combuf)
    (fuel k : Nat) (h : provider) (c : Int) (how : poll_exit) (hne : how ≠ poll_exit.again)
    (hx : (poll_iteration E NPROCS H { h with combuf_ := env k h.combuf_ } c).2.2 = how) :
    (poll_loop E NPROCS H env (fuel + 1) k h c).2 = spawn_exit.loop_left how ∧
    (poll_loop E NPROCS H env (fuel + 1) k h c).1.env_initialized_ = 3 := by
  unfold poll_loop
  rcases hpi : poll_iteration E NPROCS H { h with combuf_ := env k h.combuf_ } c with ⟨h1, c1, ex⟩
  rw [hpi] at hx
  simp only at hx
  subst hx
  cases ex with
  | again => exact absurd rfl hne
  | exit_abort => exact ⟨rfl, rfl⟩
  | exit_finish => exact ⟨rfl, rfl⟩

/-- C4: if in a poll iteration some slot below `NPROCS` reads `ABORT`, the
iteration ends with the `break` of the abort test, whatever the other slots
hold; the loop is left after that iteration and `spawn` goes on to its last
statement (`env_initialized_ = 3`). -/
theorem abort_ends_poll_loop (E : SYNCSTATE) (hE : E.in_range) (NPROCS : Nat)
    (hN : NPROCS < 2147483648) (H : hal) (env : Nat → combuf → combuf) (k : Nat)
    (h : provider) (c : Int) (i : Nat) (hi : i < NPROCS)
    (ha : (env k h.combuf_).syncstate i = E.ABORT) :
    (poll_iteration E NPROCS H { h with combuf_ := env k h.combuf_ } c).2.2
      = poll_exit.exit_abort ∧
    ∀ fuel, (poll_loop E NPROCS H env (fuel + 1) k h c).2
        = spawn_exit.loop_left poll_exit.exit_abort ∧
      (poll_loop E NPROCS H env (fuel + 1) k h c).1.env_initialized_ = 3 := by
  have hx : (poll_iteration E NPROCS H { h with combuf_ := env k h.combuf_ } c).2.2
      = poll_exit.exit_abort := by
    rw [(poll_iteration_spec E hE NPROCS hN H _ c).1]
    rw [if_pos (tally_ne_zero NPROCS _ E.ABORT i hi ha)]
  exact ⟨hx, fun fuel => poll_loop_exit E NPROCS H env fuel k h c _ (by decide) hx⟩

/-- Witness of C4: four slots, participant 1 in `ABORT`, the others in
`SYNC`; the loop is left in this iteration. -/
theorem abort_ends_poll_loop_witness :
    (poll_iteration sample_codes 4 sound_hal
      { (host_with 4 (slots_of [2, 2, 2, 2]) "") with
        combuf_ := { (host_with 4 (slots_of [2, 2, 2, 2]) "").combuf_ with
          syncstate := slots_of [2, 6, 2, 2] } } 0).2.2 = poll_exit.exit_abort ∧
    ∀ fuel, (poll_loop sample_codes 4 sound_hal
        (fun _ cb => { cb with syncstate := slots_of [2, 6, 2, 2] }) (fuel + 1) 0
        (host_with 4 (slots_of [2, 2, 2, 2]) "") 0).2
        = spawn_exit.loop_left poll_exit.exit_abort ∧
      (poll_loop sample_codes 4 sound_hal
        (fun _ cb => { cb with syncstate := slots_of [2, 6, 2, 2] }) (fuel + 1) 0
        (host_with 4 (slots_of [2, 2, 2, 2]) "") 0).1.env_initialized_ = 3 :=
  abort_ends_poll_loop sample_codes (by decide) 4 (by decide) sound_hal
    (fun _ cb => { cb with syncstate := slots_of [2, 6, 2, 2] }) 0
    (host_with 4 (slots_of [2, 2, 2, 2]) "") 0 1 (by decide) (by decide)


/-- C1 on the code: a valid provider on a grid of `NPROCS = 4` is asked for 5
processors with a readable image.  `spawn` reports the bad count and goes
on: it loads the image, writes `nprocs = 5` and `INIT` into every slot
(they held 9), starts the group and is in the poll loop when the model
stops (no iteration was granted). -/
theorem spawn_ignores_bad_processor_count :
    is_valid (host_with 0 (fun _ => 9) "") = true ∧
    (spawn sample_codes 4 sound_hal is_valid (fun _ cb => cb) 0
        (host_with 0 (fun _ => 9) "") 5 "e_benchmark.elf").1.trace
      = [event.err_processors 5, event.load_group "./e_benchmark.elf" 2 2,
         event.start_group] ∧
    (spawn sample_codes 4 sound_hal is_valid (fun _ cb => cb) 0
        (host_with 0 (fun _ => 9) "") 5 "e_benchmark.elf").1.combuf_.nprocs = 5 ∧
    (∀ i, i < 4 → (spawn sample_codes 4 sound_hal is_valid (fun _ cb => cb) 0
        (host_with 0 (fun _ => 9) "") 5 "e_benchmark.elf").1.combuf_.syncstate i
      = sample_codes.INIT) ∧
    (spawn sample_codes 4 sound_hal is_valid (fun _ cb => cb) 0
        (host_with 0 (fun _ => 9) "") 5 "e_benchmark.elf").2 = spawn_exit.still_polling := by
  refine ⟨by decide, by decide, by decide, by decide, by decide⟩


/-! ## Constructor -/

theorem for_upto_keeps {σ : Type} (P : σ → Prop) (body : Nat → σ → σ)
    (hbody : ∀ i s, P s → P (body i s)) (n : Nat) (s : σ) (hs : P s) :
    P (for_upto n body s) := by
  induction n with
  | zero => exact hs
  | succ n ih => rw [for_upto_succ]; exact hbody n _ ih

theorem barrier_init_frame {V Q : Type} (w : world_state V Q) :
    (barrier_init_ w).local_pid_ = w.local_pid_ ∧ (barrier_init_ w).nprocs_ = w.nprocs_ ∧
    (barrier_init_ w).sync_barrier_ = w.sync_barrier_ ∧
    (barrier_init_ w).syncstate_ = w.syncstate_ ∧
    (barrier_init_ w).var_list_ = w.var_list_ ∧
    (barrier_init_ w).queue_list_ = w.queue_list_ := by
  unfold barrier_init_
  split
  · apply for_upto_keeps
      (fun st : world_state V Q => st.local_pid_ = w.local_pid_ ∧ st.nprocs_ = w.nprocs_ ∧
        st.sync_barrier_ = w.sync_barrier_ ∧ st.syncstate_ = w.syncstate_ ∧
        st.var_list_ = w.var_list_ ∧ st.queue_list_ = w.queue_list_)
    · intro i st hs
      exact hs
    · exact ⟨rfl, rfl, rfl, rfl, rfl, rfl⟩
  · exact ⟨rfl, rfl, rfl, rfl, rfl, rfl⟩

/-- The constructor is `sync` after `write_syncstate_(RUN)` on an object that
has the row-major pid and the flags and slot tables of the object it
started from. -/
theorem world_state_ctor_shape {V Q : Type} (E : SYNCSTATE) (C : object_calls V Q)
    (MAX_VARS : Nat) (cfg : group_config) (cfc : Nat → Nat → Nat) (addr : Nat)
    (w : world_state V Q) (cb : combuf) :
    ∃ (w3 : world_state V Q) (cb1 : combuf),
      w3.local_pid_
        = local_pid_of (int32 cfg.core_row) (int32 cfg.core_col) (int32 cfg.group_cols) ∧
      w3.sync_barrier_ = w.sync_barrier_ ∧ w3.var_list_ = w.var_list_ ∧
      w3.queue_list_ = w.queue_list_ ∧ cb1.syncstate = cb.syncstate ∧
      world_state_ctor E C MAX_VARS cfg cfc addr w cb
        = (sync C MAX_VARS (write_syncstate_ E.RUN w3 cb1).1,
           (write_syncstate_ E.RUN w3 cb1).2) := by
  refine ⟨barrier_init_
      { w with
        local_pid_ := local_pid_of (int32 cfg.core_row) (int32 cfg.core_col)
          (int32 cfg.group_cols),
        nprocs_ := int32 (int32 cfg.group_cols * int32 cfg.group_rows),
        coreids_ := (fill_coreids cfc (int32 cfg.group_rows) (int32 cfg.group_cols)
          w.coreids_).1 }, _, ?_, ?_, ?_, ?_, ?_, rfl⟩
  · exact (barrier_init_frame _).1
  · exact (barrier_init_frame _).2.2.1
  · exact (barrier_init_frame _).2.2.2.2.1
  · exact (barrier_init_frame _).2.2.2.2.2
  · split <;> rfl

theorem world_state_ctor_effect {V Q : Type} (E : SYNCSTATE) (C : object_calls V Q)
    (MAX_VARS : Nat) (cfg : group_config) (cfc : Nat → Nat → Nat) (addr : Nat)
    (w : world_state V Q) (cb : combuf) :
    (world_state_ctor E C MAX_VARS cfg cfc addr w cb).1.local_pid_
      = local_pid_of (int32 cfg.core_row) (int32 cfg.core_col) (int32 cfg.group_cols) ∧
    (world_state_ctor E C MAX_VARS cfg cfc addr w cb).1.sync_barrier_ = w.sync_barrier_ ∧
    (world_state_ctor E C MAX_VARS cfg cfc addr w cb).1.syncstate_ = E.RUN ∧
    (world_state_ctor E C MAX_VARS cfg cfc addr w cb).2.syncstate
      = Function.update cb.syncstate
          (local_pid_of (int32 cfg.core_row) (int32 cfg.core_col) (int32 cfg.group_cols)).toNat
          E.RUN ∧
    (∀ j, (world_state_ctor E C MAX_VARS cfg cfc addr w cb).1.var_list_ j
      = if j < MAX_VARS then sync_var_slot C (w.var_list_ j) else w.var_list_ j) ∧
    (∀ j, (world_state_ctor E C MAX_VARS cfg cfc addr w cb).1.queue_list_ j
      = if j < MAX_VARS then sync_queue_slot C (w.queue_list_ j) else w.queue_list_ j) := by
  obtain ⟨w3, cb1, h1, h2, h3, h4, h5, hc⟩ :=
    world_state_ctor_shape E C MAX_VARS cfg cfc addr w cb
  rw [hc]
  obtain ⟨s1, _, _, s4, _, s6⟩ := sync_frame C MAX_VARS (write_syncstate_ E.RUN w3 cb1).1
  refine ⟨?_, ?_, ?_, ?_, ?_, ?_⟩
  · exact s1.trans h1
  · exact s4.trans h2
  · exact s6
  · show Function.update cb1.syncstate w3.local_pid_.toNat E.RUN = _
    rw [h5, h1]
  · intro j
    have := sync_var_list_ C MAX_VARS (write_syncstate_ E.RUN w3 cb1).1 j
    rw [this]
    show (if j < MAX_VARS then sync_var_slot C (w3.var_list_ j) else w3.var_list_ j) = _
    rw [h3]
  · intro j
    have := sync_queue_list_ C MAX_VARS (write_syncstate_ E.RUN w3 cb1).1 j
    rw [this]
    show (if j < MAX_VARS then sync_queue_slot C (w3.queue_list_ j) else w3.queue_list_ j) = _
    rw [h4]

/-! ## Host coordinates and participant ids -/

theorem host_coords_of_nonneg (p cols : Int) (hp : 0 ≤ p) (hc : 1 ≤ cols) :
    host_coords p cols = (p / cols, p % cols) := by
  unfold host_coords
  rw [Int.tdiv_eq_ediv hp (by omega), Int.tmod_eq_emod hp (by omega)]

theorem local_pid_of_in_grid (rows cols row col : Int) (hfit : rows * cols < 2147483648)
    (hc : 1 ≤ cols) (h0 : 0 ≤ row) (h1 : row < rows) (h2 : 0 ≤ col) (h3 : col < cols) :
    local_pid_of row col cols = col + cols * row ∧ 0 ≤ col + cols * row ∧
    col + cols * row < rows * cols := by
  have hm : 0 ≤ cols * row := mul_nonneg (by omega) h0
  have hle : cols * row ≤ cols * (rows - 1) := by
    apply mul_le_mul_of_nonneg_left <;> omega
  have he : cols * (rows - 1) = rows * cols - cols := by ring
  have hlt : col + cols * row < rows * cols := by omega
  refine ⟨?_, by omega, hlt⟩
  unfold local_pid_of
  rw [int32_of_range (cols * row) (by omega) (by omega)]
  rw [int32_of_range _ (by omega) (by omega)]

/-- C9: on a grid of `rows ≥ 1` by `cols ≥ 1` cores whose size fits an `int`,
the coordinates `(p / cols, p % cols)` at which the host addresses
participant `p` of `[0, rows * cols)` lie in the grid, and the participant at
these coordinates computes `local_pid_ = col + cols * row = p`; conversely
the id computed at any in-grid `(row, col)` lies in `[0, rows * cols)` and
is mapped back to `(row, col)` by the host.  In particular the constructor
run on the core at `(core_row, core_col)` of such a group stores the id at
which the host addresses that very core. -/
theorem host_coords_match_local_pid (rows cols : Int) (hr : 1 ≤ rows) (hc : 1 ≤ cols)
    (hfit : rows * cols < 2147483648) :
    (∀ p, 0 ≤ p → p < rows * cols →
      (0 ≤ (host_coords p cols).1 ∧ (host_coords p cols).1 < rows) ∧
      (0 ≤ (host_coords p cols).2 ∧ (host_coords p cols).2 < cols) ∧
      local_pid_of (host_coords p cols).1 (host_coords p cols).2 cols = p) ∧
    (∀ row col, 0 ≤ row → row < rows → 0 ≤ col → col < cols →
      (0 ≤ local_pid_of row col cols ∧ local_pid_of row col cols < rows * cols) ∧
      host_coords (local_pid_of row col cols) cols = (row, col)) ∧
    (∀ {V Q : Type} (E : SYNCSTATE) (C : object_calls V Q) (MAX_VARS : Nat) (cfg : group_config)
      (cfc : Nat → Nat → Nat) (addr : Nat) (w : world_state V Q) (cb : combuf),
      (cfg.group_rows : Int) = rows → (cfg.group_cols : Int) = cols →
      cfg.core_row < cfg.group_rows → cfg.core_col < cfg.group_cols →
      host_coords (world_state_ctor E C MAX_VARS cfg cfc addr w cb).1.local_pid_ cols
        = ((cfg.core_row : Int), (cfg.core_col : Int))) := by
  have conv : ∀ row col, 0 ≤ row → row < rows → 0 ≤ col → col < cols →
      (0 ≤ local_pid_of row col cols ∧ local_pid_of row col cols < rows * cols) ∧
      host_coords (local_pid_of row col cols) cols = (row, col) := by
    intro row col h0 h1 h2 h3
    obtain ⟨e, lo, hi⟩ := local_pid_of_in_grid rows cols row col hfit hc h0 h1 h2 h3
    rw [e]
    refine ⟨⟨lo, hi⟩, ?_⟩
    rw [host_coords_of_nonneg _ _ lo hc]
    rw [Int.add_mul_ediv_left col row (by omega : cols ≠ 0), Int.add_mul_emod_self_left,
      Int.ediv_eq_zero_of_lt h2 h3, Int.emod_eq_of_lt h2 h3]
    simp
  refine ⟨?_, conv, ?_⟩
  · intro p hp0 hp1
    rw [host_coords_of_nonneg p cols hp0 hc]
    simp only
    have hq0 : 0 ≤ p / cols := Int.ediv_nonneg hp0 (by omega)
    have hq1 : p / cols < rows := Int.ediv_lt_of_lt_mul (by omega) hp1
    have hm0 : 0 ≤ p % cols := Int.emod_nonneg p (by omega)
    have hm1 : p % cols < cols := Int.emod_lt_of_pos p (by omega)
    refine ⟨⟨hq0, hq1⟩, ⟨hm0, hm1⟩, ?_⟩
    rw [(local_pid_of_in_grid rows cols _ _ hfit hc hq0 hq1 hm0 hm1).1]
    have := Int.ediv_add_emod p cols
    omega
  · intro V Q E C MAX_VARS cfg cfc addr w cb hrows hcols hrow hcol
    rw [(world_state_ctor_effect E C MAX_VARS cfg cfc addr w cb).1]
    have hcl : (cfg.core_col : Int) < cols := by rw [← hcols]; exact_mod_cast hcol
    have hrw : (cfg.core_row : Int) < rows := by rw [← hrows]; exact_mod_cast hrow
    have hrc : rows ≤ rows * cols := by nlinarith
    have hcc : cols ≤ rows * cols := by nlinarith
    rw [int32_of_range (cfg.core_row : Int) (by omega) (by omega),
      int32_of_range (cfg.core_col : Int) (by omega) (by omega),
      int32_of_range (cfg.group_cols : Int) (by omega) (by omega), hcols]
    exact (conv _ _ (by omega) hrw (by omega) hcl).2

/-- Witness of C9: the 4 x 4 grid. -/
theorem host_coords_match_local_pid_witness :
    (∀ p : Int, 0 ≤ p → p < 4 * 4 →
      (0 ≤ (host_coords p 4).1 ∧ (host_coords p 4).1 < 4) ∧
      (0 ≤ (host_coords p 4).2 ∧ (host_coords p 4).2 < 4) ∧
      local_pid_of (host_coords p 4).1 (host_coords p 4).2 4 = p) ∧
    host_coords 7 4 = (1, 3) ∧ local_pid_of 1 3 4 = 7 :=
  ⟨(host_coords_match_local_pid 4 4 (by decide) (by decide) (by decide)).1,
   by decide, by decide⟩

/-- What the last statement of the constructor does: after publishing `RUN`
the constructor calls `sync()`, and `sync()` contains no barrier.  Run to
completion for participant `p`, the constructor leaves the barrier flags of
every core as they were, touches no other core, stays outside `barrier()`
and never polls; `RUN` is in the participant's local mirror and in its slot
of the buffer; and on slot tables without a registered variable or queue
(the zero-initialised object) the call of `sync()` changes nothing at all. -/
theorem constructor_syncs_without_barrier {V Q : Type} (E : SYNCSTATE) (C : object_calls V Q)
    (MAX_VARS : Nat) (cfg : Nat → group_config) (cfc : Nat → Nat → Nat) (addr : Nat)
    (p : Nat) (s : grid V Q × combuf) :
    (∀ q, ((construct E C MAX_VARS cfg cfc addr p s).1.cores q).sync_barrier_
      = (s.1.cores q).sync_barrier_) ∧
    (∀ q, q ≠ p → (construct E C MAX_VARS cfg cfc addr p s).1.cores q = s.1.cores q) ∧
    (construct E C MAX_VARS cfg cfc addr p s).1.pc = s.1.pc ∧
    (construct E C MAX_VARS cfg cfc addr p s).1.polls = s.1.polls ∧
    ((construct E C MAX_VARS cfg cfc addr p s).1.cores p).syncstate_ = E.RUN ∧
    (construct E C MAX_VARS cfg cfc addr p s).2.syncstate
      ((construct E C MAX_VARS cfg cfc addr p s).1.cores p).local_pid_.toNat = E.RUN ∧
    ((∀ j, ((s.1.cores p).var_list_ j).base = none ∧ ((s.1.cores p).queue_list_ j).base = none) →
      ((construct E C MAX_VARS cfg cfc addr p s).1.cores p).var_list_ = (s.1.cores p).var_list_ ∧
      ((construct E C MAX_VARS cfg cfc addr p s).1.cores p).queue_list_
        = (s.1.cores p).queue_list_) := by
  obtain ⟨e1, e2, e3, e4, e5, e6⟩ :=
    world_state_ctor_effect E C MAX_VARS (cfg p) cfc addr (s.1.cores p) s.2
  have hp : (construct E C MAX_VARS cfg cfc addr p s).1.cores p
      = (world_state_ctor E C MAX_VARS (cfg p) cfc addr (s.1.cores p) s.2).1 := by
    show Function.update s.1.cores p _ p = _
    rw [Function.update_same]
  have hq : ∀ q, q ≠ p → (construct E C MAX_VARS cfg cfc addr p s).1.cores q = s.1.cores q := by
    intro q hne
    show Function.update s.1.cores p _ q = _
    rw [Function.update_noteq hne]
  have h2 : (construct E C MAX_VARS cfg cfc addr p s).2
      = (world_state_ctor E C MAX_VARS (cfg p) cfc addr (s.1.cores p) s.2).2 := rfl
  refine ⟨?_, hq, rfl, rfl, ?_, ?_, ?_⟩
  · intro q
    by_cases hne : q = p
    · subst hne; rw [hp, e2]
    · rw [hq q hne]
  · rw [hp, e3]
  · rw [hp, h2, e4, e1, Function.update_same]
  · intro hz
    rw [hp]
    constructor
    · funext j
      rw [e5 j]
      split
      · unfold sync_var_slot
        rw [(hz j).1]
      · rfl
    · funext j
      rw [e6 j]
      split
      · unfold sync_queue_slot
        rw [(hz j).2]
      · rfl

/-- The freshly loaded pair with participant 1 constructed: core 0 is
untouched and the slot tables of core 1 are as before. -/
theorem constructor_syncs_without_barrier_witness :
    (construct sample_codes byte_objects 4 pair_config (fun i j => 2 * i + j) 100 1
        loaded_pair).1.cores 0 = loaded_pair.1.cores 0 ∧
    ((construct sample_codes byte_objects 4 pair_config (fun i j => 2 * i + j) 100 1
        loaded_pair).1.cores 1).var_list_ = (loaded_pair.1.cores 1).var_list_ :=
  ⟨(constructor_syncs_without_barrier sample_codes byte_objects 4 pair_config
      (fun i j => 2 * i + j) 100 1 loaded_pair).2.1 0 (by decide),
   ((constructor_syncs_without_barrier sample_codes byte_objects 4 pair_config
      (fun i j => 2 * i + j) 100 1 loaded_pair).2.2.2.2.2.2 (fun _ => ⟨rfl, rfl⟩)).1⟩

/-- C10 on the code: the constructor sets up the barrier (`barrier_init_`)
and ends with `write_syncstate_(RUN); sync();`, but `sync()` performs no
barrier.  In the freshly loaded pair only participant 1 runs its
constructor, to the end.  It has published `RUN` and left the constructor,
yet its flag on the hub is still 0, its own release flag is still 0, it has
not polled, and participant 0 has not published `RUN`; the first step of
`barrier()` would have set the flag on the hub. -/
theorem constructor_returns_before_hub_runs :
    ((construct sample_codes byte_objects 4 pair_config (fun i j => 2 * i + j) 100 1
        loaded_pair).1.cores 1).local_pid_ = 1 ∧
    ((construct sample_codes byte_objects 4 pair_config (fun i j => 2 * i + j) 100 1
        loaded_pair).1.cores 1).syncstate_ = sample_codes.RUN ∧
    (construct sample_codes byte_objects 4 pair_config (fun i j => 2 * i + j) 100 1
        loaded_pair).2.syncstate 1 = sample_codes.RUN ∧
    ((construct sample_codes byte_objects 4 pair_config (fun i j => 2 * i + j) 100 1
        loaded_pair).1.cores 0).sync_barrier_ 1 = 0 ∧
    ((construct sample_codes byte_objects 4 pair_config (fun i j => 2 * i + j) 100 1
        loaded_pair).1.cores 1).sync_barrier_ 0 = 0 ∧
    (construct sample_codes byte_objects 4 pair_config (fun i j => 2 * i + j) 100 1
        loaded_pair).1.polls 1 = 0 ∧
    (construct sample_codes byte_objects 4 pair_config (fun i j => 2 * i + j) 100 1
        loaded_pair).2.syncstate 0 ≠ sample_codes.RUN ∧
    ((barrier_step 1 (construct sample_codes byte_objects 4 pair_config (fun i j => 2 * i + j)
        100 1 loaded_pair).1).cores 0).sync_barrier_ 1 = 1 := by
  refine ⟨by decide, by decide, by decide, by decide, by decide, by decide, by decide,
    by decide⟩

/-! ## Barrier: stores and the invariant -/

theorem store_flag_pc {V Q : Type} (g : grid V Q) (a : Option flag_addr) (v : Int) :
    (store_flag g a v).pc = g.pc := by
  cases a <;> rfl

theorem store_flag_polls {V Q : Type} (g : grid V Q) (a : Option flag_addr) (v : Int) :
    (store_flag g a v).polls = g.polls := by
  cases a <;> rfl

theorem store_flag_static {V Q : Type} (g : grid V Q) (a : Option flag_addr) (v : Int) (c : Nat) :
    ((store_flag g a v).cores c).local_pid_ = (g.cores c).local_pid_ ∧
    ((store_flag g a v).cores c).nprocs_ = (g.cores c).nprocs_ ∧
    ((store_flag g a v).cores c).sync_barrier_tgt_ = (g.cores c).sync_barrier_tgt_ := by
  cases a with
  | none => exact ⟨rfl, rfl, rfl⟩
  | some a =>
    simp only [store_flag]
    by_cases h : c = a.core
    · subst h; simp
    · simp [Function.update_noteq h]

theorem store_flag_flag {V Q : Type} (g : grid V Q) (c0 s0 : Nat) (v : Int) (c s : Nat) :
    ((store_flag g (some { core := c0, slot := s0 }) v).cores c).sync_barrier_ s
      = if c = c0 ∧ s = s0 then v else (g.cores c).sync_barrier_ s := by
  simp only [store_flag]
  by_cases h : c = c0
  · subst h
    by_cases hs : s = s0
    · subst hs; simp
    · simp [Function.update_noteq hs, hs]
  · simp [Function.update_noteq h, h]

/-- The counter of polls plays no part in the invariant. -/
theorem barrier_inv_polls {V Q : Type} (n : Nat) (g : grid V Q) (f : Nat → Nat)
    (hI : barrier_inv n g) : barrier_inv n { g with polls := f } :=
  ⟨hI.pid, hI.nprocs, hI.tgt_hub, hI.tgt_other, hI.shape_hub, hI.shape_other, hI.flag_hub,
    hI.polled, hI.hub_past, hI.flag_other, hI.other_past⟩

/-- The invariant survives a step of participant `p` that leaves it at a
place `x` other than the entry, given what the step may have done to the
flags. -/
theorem barrier_inv_next {V Q : Type} (n : Nat) (g g1 : grid V Q) (p : Nat) (x : barrier_pc)
    (hI : barrier_inv n g) (hx : x ≠ barrier_pc.flip)
    (h_pid : ∀ c, (g1.cores c).local_pid_ = (g.cores c).local_pid_)
    (h_np : ∀ c, (g1.cores c).nprocs_ = (g.cores c).nprocs_)
    (h_tgt : ∀ c, (g1.cores c).sync_barrier_tgt_ = (g.cores c).sync_barrier_tgt_)
    (h_pc : ∀ r, g1.pc r = if r = p then x else g.pc r)
    (h_shape0 : p = 0 → x ≠ barrier_pc.wait ∧ x ≠ barrier_pc.wait_clear)
    (h_shape1 : p ≠ 0 → ∀ i, x ≠ barrier_pc.hub_poll i ∧ x ≠ barrier_pc.hub_clear i ∧
      x ≠ barrier_pc.hub_release i)
    (h_a : ∀ q, 1 ≤ q → q < n → (g1.cores 0).sync_barrier_ q ≠ 0 →
      (g.cores 0).sync_barrier_ q ≠ 0 ∨ q = p)
    (h_b : p = 0 → ∀ i, x = barrier_pc.hub_poll i →
      1 ≤ i ∧ ∀ q, 1 ≤ q → q < i → q < n → g.pc q ≠ barrier_pc.flip)
    (h_c : p = 0 → (∀ i, x ≠ barrier_pc.hub_poll i) →
      ∀ r, r < n → r ≠ p → g.pc r ≠ barrier_pc.flip)
    (h_d : ∀ q, 1 ≤ q → (g1.cores q).sync_barrier_ 0 ≠ 0 →
      (g.cores q).sync_barrier_ 0 ≠ 0 ∨ ∀ r, r < n → r ≠ p → g.pc r ≠ barrier_pc.flip)
    (h_e : p ≠ 0 → (x = barrier_pc.wait_clear ∨ x = barrier_pc.returned) →
      ∀ r, r < n → r ≠ p → g.pc r ≠ barrier_pc.flip) :
    barrier_inv n g1 := by
  have stab : ∀ r, g.pc r ≠ barrier_pc.flip → g1.pc r ≠ barrier_pc.flip := by
    intro r hr
    rw [h_pc r]
    split
    · exact hx
    · exact hr
  have of_but : (∀ r, r < n → r ≠ p → g.pc r ≠ barrier_pc.flip) → all_in n g1 := by
    intro hb r hr
    rw [h_pc r]
    split
    · exact hx
    · rename_i hne; exact hb r hr hne
  have of_all : all_in n g → all_in n g1 := fun ha r hr => stab r (ha r hr)
  refine ⟨?_, ?_, ?_, ?_, ?_, ?_, ?_, ?_, ?_, ?_, ?_⟩
  · intro c; rw [h_pid c]; exact hI.pid c
  · intro c; rw [h_np c]; exact hI.nprocs c
  · intro s hs; rw [h_tgt 0]; exact hI.tgt_hub s hs
  · intro c hc; rw [h_tgt c]; exact hI.tgt_other c hc
  · rw [h_pc 0]
    split
    · rename_i h0; exact h_shape0 h0.symm
    · exact hI.shape_hub
  · intro c hc i
    rw [h_pc c]
    split
    · rename_i hcp; exact h_shape1 (fun h => hc (hcp.trans h)) i
    · exact hI.shape_other c hc i
  · intro q hq1 hqn hf
    rcases h_a q hq1 hqn hf with h | h
    · exact stab q (hI.flag_hub q hq1 hqn h)
    · rw [h_pc q, if_pos h]; exact hx
  · intro i hi
    rw [h_pc 0] at hi
    split at hi
    · rename_i h0
      obtain ⟨h1, h2⟩ := h_b h0.symm i hi
      exact ⟨h1, fun q a b c => stab q (h2 q a b c)⟩
    · obtain ⟨h1, h2⟩ := hI.polled i hi
      exact ⟨h1, fun q a b c => stab q (h2 q a b c)⟩
  · intro hnf hnp
    rw [h_pc 0] at hnf hnp
    split at hnf
    · rename_i h0
      simp only [h0, if_true] at hnp
      exact of_but (h_c h0.symm hnp)
    · rename_i h0
      simp only [h0, if_false] at hnp
      exact of_all (hI.hub_past hnf hnp)
  · intro q hq hf
    rcases h_d q hq hf with h | h
    · exact of_all (hI.flag_other q hq h)
    · exact of_but h
  · intro q hq hpast
    rw [h_pc q] at hpast
    split at hpast
    · rename_i hqp
      exact of_but (h_e (by omega) hpast)
    · exact of_all (hI.other_past q hq hpast)


/-- The invariant survives a step of `p` that stores `v` through `a` (or
stores nothing, `a = none`) and moves on to the place `x`. -/
theorem barrier_inv_store {V Q : Type} (n : Nat) (g : grid V Q) (p : Nat) (x : barrier_pc)
    (a : Option flag_addr) (v : Int)
    (hI : barrier_inv n g) (hx : x ≠ barrier_pc.flip)
    (h_shape0 : p = 0 → x ≠ barrier_pc.wait ∧ x ≠ barrier_pc.wait_clear)
    (h_shape1 : p ≠ 0 → ∀ i, x ≠ barrier_pc.hub_poll i ∧ x ≠ barrier_pc.hub_clear i ∧
      x ≠ barrier_pc.hub_release i)
    (h_a : ∀ q, 1 ≤ q → q < n → a = some { core := 0, slot := q } → v ≠ 0 → q = p)
    (h_b : p = 0 → ∀ i, x = barrier_pc.hub_poll i →
      1 ≤ i ∧ ∀ q, 1 ≤ q → q < i → q < n → g.pc q ≠ barrier_pc.flip)
    (h_c : p = 0 → (∀ i, x ≠ barrier_pc.hub_poll i) →
      ∀ r, r < n → r ≠ p → g.pc r ≠ barrier_pc.flip)
    (h_d : ∀ q, 1 ≤ q → a = some { core := q, slot := 0 } → v ≠ 0 →
      ∀ r, r < n → r ≠ p → g.pc r ≠ barrier_pc.flip)
    (h_e : p ≠ 0 → (x = barrier_pc.wait_clear ∨ x = barrier_pc.returned) →
      ∀ r, r < n → r ≠ p → g.pc r ≠ barrier_pc.flip) :
    barrier_inv n { store_flag g a v with pc := Function.update g.pc p x } := by
  apply barrier_inv_next n g _ p x hI hx
  · intro c; exact (store_flag_static g a v c).1
  · intro c; exact (store_flag_static g a v c).2.1
  · intro c; exact (store_flag_static g a v c).2.2
  · intro r
    show Function.update g.pc p x r = _
    by_cases h : r = p
    · subst h; simp
    · simp [Function.update_noteq h, h]
  · exact h_shape0
  · exact h_shape1
  · intro q hq1 hqn hf
    change ((store_flag g a v).cores 0).sync_barrier_ q ≠ 0 at hf
    cases a with
    | none => exact Or.inl hf
    | some ad =>
      obtain ⟨c0, s0⟩ := ad
      rw [store_flag_flag] at hf
      split at hf
      · rename_i hc
        obtain ⟨hc0, hs0⟩ := hc
        subst hc0; subst hs0
        exact Or.inr (h_a q hq1 hqn rfl hf)
      · exact Or.inl hf
  · exact h_b
  · exact h_c
  · intro q hq hf
    change ((store_flag g a v).cores q).sync_barrier_ 0 ≠ 0 at hf
    cases a with
    | none => exact Or.inl hf
    | some ad =>
      obtain ⟨c0, s0⟩ := ad
      rw [store_flag_flag] at hf
      split at hf
      · rename_i hc
        obtain ⟨hc0, hs0⟩ := hc
        subst hc0; subst hs0
        exact Or.inr (h_d q hq rfl hf)
      · exact Or.inl hf
  · exact h_e

/-- Every step of every participant keeps the invariant. -/
theorem barrier_inv_step {V Q : Type} (n : Nat) (g : grid V Q) (p : Nat)
    (hI : barrier_inv n g) : barrier_inv n (barrier_step p g) := by
  have hpid := hI.pid p
  have hnp := hI.nprocs p
  have hlt : ∀ i : Nat, ((i : Int) < (g.cores p).nprocs_) ↔ i < n := by
    intro i; rw [hnp]; exact Int.ofNat_lt
  have hz : ((g.cores p).local_pid_ = 0) ↔ p = 0 := by
    rw [hpid]; omega
  have but_of_all : all_in n g → ∀ r, r < n → r ≠ p → g.pc r ≠ barrier_pc.flip :=
    fun ha r hr _ => ha r hr
  unfold barrier_step
  simp only
  cases hpc : g.pc p with
  | flip =>
    simp only
    by_cases hp0 : p = 0
    · rw [if_pos (hz.mpr hp0)]
      have htn : (g.cores p).local_pid_.toNat = 0 := by rw [hpid, hp0]; rfl
      rw [htn]
      apply barrier_inv_store n g p (barrier_pc.hub_poll 1) _ 1 hI (by simp)
      · intro _; exact ⟨by simp, by simp⟩
      · intro h; exact absurd hp0 h
      · intro q hq1 _ ha _
        simp only [Option.some.injEq, flag_addr.mk.injEq] at ha
        omega
      · intro _ i hi
        simp only [barrier_pc.hub_poll.injEq] at hi
        exact ⟨by omega, fun q h1 h2 _ => by omega⟩
      · intro _ h; exact absurd rfl (h 1)
      · intro q hq ha _
        simp only [Option.some.injEq, flag_addr.mk.injEq] at ha
        omega
      · intro h; exact absurd hp0 h
    · rw [if_neg (fun h => hp0 (hz.mp h)), hI.tgt_other p hp0]
      apply barrier_inv_store n g p barrier_pc.wait _ 1 hI (by simp)
      · intro h; exact absurd h hp0
      · intro _ i; exact ⟨by simp, by simp, by simp⟩
      · intro q _ _ ha _
        simp only [Option.some.injEq, flag_addr.mk.injEq] at ha
        omega
      · intro h; exact absurd h hp0
      · intro h; exact absurd h hp0
      · intro q hq ha _
        simp only [Option.some.injEq, flag_addr.mk.injEq] at ha
        omega
      · intro _ h; rcases h with h | h <;> simp at h
  | hub_poll i =>
    simp only
    have hp0 : p = 0 := by
      by_contra hne
      exact (hI.shape_other p hne i).1 hpc
    by_cases hin : i < n
    · rw [if_pos ((hlt i).mpr hin)]
      by_cases hf : (g.cores p).sync_barrier_ i = 0
      · rw [if_pos hf]
        exact barrier_inv_polls n g _ hI
      · rw [if_neg hf]
        have hIp := barrier_inv_polls n g (Function.update g.polls p (g.polls p + 1)) hI
        have := barrier_inv_store n { g with polls := Function.update g.polls p (g.polls p + 1) }
          p (barrier_pc.hub_poll (i + 1)) none 0 hIp (by simp)
          (fun _ => ⟨by simp, by simp⟩) (fun h => absurd hp0 h)
          (fun q _ _ ha _ => by simp at ha)
          (fun _ j hj => by
            simp only [barrier_pc.hub_poll.injEq] at hj
            subst hj
            subst hp0
            obtain ⟨h1, h2⟩ := hI.polled i hpc
            refine ⟨by omega, fun q hq1 hq2 hq3 => ?_⟩
            rcases Nat.lt_or_ge q i with hlt2 | hge
            · exact h2 q hq1 hlt2 hq3
            · have : q = i := by omega
              subst this
              exact hI.flag_hub q hq1 hq3 hf)
          (fun _ h => absurd rfl (h (i + 1)))
          (fun q _ ha _ => by simp at ha)
          (fun h => absurd hp0 h)
        exact this
    · rw [if_neg (fun h => hin ((hlt i).mp h))]
      have := barrier_inv_store n g p (barrier_pc.hub_clear 0) none 0 hI (by simp)
        (fun _ => ⟨by simp, by simp⟩) (fun h => absurd hp0 h)
        (fun q _ _ ha _ => by simp at ha)
        (fun _ j hj => by simp at hj)
        (fun _ _ r hr hrp => by
          subst hp0
          obtain ⟨_, h2⟩ := hI.polled i hpc
          exact h2 r (by omega) (by omega) hr)
        (fun q _ ha _ => by simp at ha)
        (fun h => absurd hp0 h)
      exact this
  | hub_clear i =>
    simp only
    have hp0 : p = 0 := by
      by_contra hne
      exact (hI.shape_other p hne i).2.1 hpc
    have hall : all_in n g := by
      subst hp0
      exact hI.hub_past (by rw [hpc]; simp) (fun j => by rw [hpc]; simp)
    by_cases hin : i < n
    · rw [if_pos ((hlt i).mpr hin)]
      apply barrier_inv_store n g p (barrier_pc.hub_clear (i + 1)) _ 0 hI (by simp)
      · intro _; exact ⟨by simp, by simp⟩
      · intro h; exact absurd hp0 h
      · intro q _ _ _ hv; exact absurd rfl hv
      · intro _ j hj; simp at hj
      · intro _ _; exact but_of_all hall
      · intro q _ _ hv; exact absurd rfl hv
      · intro h; exact absurd hp0 h
    · rw [if_neg (fun h => hin ((hlt i).mp h))]
      have := barrier_inv_store n g p (barrier_pc.hub_release 1) none 0 hI (by simp)
        (fun _ => ⟨by simp, by simp⟩) (fun h => absurd hp0 h)
        (fun q _ _ ha _ => by simp at ha)
        (fun _ j hj => by simp at hj)
        (fun _ _ => but_of_all hall)
        (fun q _ ha _ => by simp at ha)
        (fun h => absurd hp0 h)
      exact this
  | hub_release i =>
    simp only
    have hp0 : p = 0 := by
      by_contra hne
      exact (hI.shape_other p hne i).2.2 hpc
    have hall : all_in n g := by
      subst hp0
      exact hI.hub_past (by rw [hpc]; simp) (fun j => by rw [hpc]; simp)
    by_cases hin : i < n
    · rw [if_pos ((hlt i).mpr hin)]
      apply barrier_inv_store n g p (barrier_pc.hub_release (i + 1)) _ 1 hI (by simp)
      · intro _; exact ⟨by simp, by simp⟩
      · intro h; exact absurd hp0 h
      · intro q hq1 _ ha _
        subst hp0
        rw [hI.tgt_hub i hin] at ha
        simp only [Option.some.injEq, flag_addr.mk.injEq] at ha
        omega
      · intro _ j hj; simp at hj
      · intro _ _; exact but_of_all hall
      · intro _ _ _ _; exact but_of_all hall
      · intro h; exact absurd hp0 h
    · rw [if_neg (fun h => hin ((hlt i).mp h))]
      have := barrier_inv_store n g p barrier_pc.returned none 0 hI (by simp)
        (fun _ => ⟨by simp, by simp⟩) (fun h => absurd hp0 h)
        (fun q _ _ ha _ => by simp at ha)
        (fun _ j hj => by simp at hj)
        (fun _ _ => but_of_all hall)
        (fun q _ ha _ => by simp at ha)
        (fun h => absurd hp0 h)
      exact this
  | wait =>
    simp only
    have hp0 : p ≠ 0 := by
      intro h0
      subst h0
      exact hI.shape_hub.1 hpc
    by_cases hf : (g.cores p).sync_barrier_ 0 = 0
    · rw [if_pos hf]
      exact barrier_inv_polls n g _ hI
    · rw [if_neg hf]
      have hall : all_in n g := hI.flag_other p (by omega) hf
      have hIp := barrier_inv_polls n g (Function.update g.polls p (g.polls p + 1)) hI
      have := barrier_inv_store n { g with polls := Function.update g.polls p (g.polls p + 1) }
        p barrier_pc.wait_clear none 0 hIp (by simp)
        (fun h => absurd h hp0) (fun _ j => ⟨by simp, by simp, by simp⟩)
        (fun q _ _ ha _ => by simp at ha)
        (fun h => absurd h hp0)
        (fun h => absurd h hp0)
        (fun q _ ha _ => by simp at ha)
        (fun _ _ => but_of_all hall)
      exact this
  | wait_clear =>
    simp only
    have hp0 : p ≠ 0 := by
      intro h0
      subst h0
      exact hI.shape_hub.2 hpc
    have hall : all_in n g := hI.other_past p (by omega) (Or.inl hpc)
    apply barrier_inv_store n g p barrier_pc.returned _ 0 hI (by simp)
    · intro h; exact absurd h hp0
    · intro _ j; exact ⟨by simp, by simp, by simp⟩
    · intro q _ _ _ hv; exact absurd rfl hv
    · intro h; exact absurd h hp0
    · intro h; exact absurd h hp0
    · intro q _ _ hv; exact absurd rfl hv
    · intro _ _; exact but_of_all hall
  | returned => exact hI


/-! ## Barrier: all reachable states -/

theorem barrier_init_hub_targets {V Q : Type} (w : world_state V Q) (m s : Nat) :
    (for_upto m
      (fun s st =>
        let tgt := Function.update st.sync_barrier_tgt_ s (some { core := s, slot := 0 })
        { st with sync_barrier_tgt_ := tgt }) w).sync_barrier_tgt_ s
      = if s < m then some { core := s, slot := 0 } else w.sync_barrier_tgt_ s := by
  induction m with
  | zero => simp [for_upto_zero]
  | succ m ih =>
    rw [for_upto_succ]
    simp only
    by_cases h : s = m
    · subst h; simp
    · rw [Function.update_noteq h, ih]
      have : (s < m + 1) ↔ (s < m) := by omega
      simp [this]

/-- The invariant holds when all participants are about to enter. -/
theorem barrier_inv_start (V Q : Type) (n : Nat) : barrier_inv n (barrier_start V Q n) := by
  have hfr : ∀ c : Nat, ((barrier_start V Q n).cores c).local_pid_ = (c : Int) ∧
      ((barrier_start V Q n).cores c).nprocs_ = (n : Int) ∧
      ((barrier_start V Q n).cores c).sync_barrier_ = fun _ => 0 := by
    intro c
    obtain ⟨f1, f2, f3, _, _, _⟩ :=
      barrier_init_frame { (zero_world V Q) with local_pid_ := (c : Int), nprocs_ := (n : Int) }
    exact ⟨f1, f2, f3⟩
  refine ⟨fun c => (hfr c).1, fun c => (hfr c).2.1, ?_, ?_, ?_, ?_, ?_, ?_, ?_, ?_, ?_⟩
  · intro s hs
    show (barrier_init_
      { (zero_world V Q) with local_pid_ := ((0 : Nat) : Int), nprocs_ := (n : Int) }
      ).sync_barrier_tgt_ s = _
    unfold barrier_init_
    simp only [Nat.cast_zero, if_true, Int.toNat_natCast]
    rw [barrier_init_hub_targets, if_pos hs]
  · intro c hc
    show (barrier_init_
      { (zero_world V Q) with local_pid_ := (c : Int), nprocs_ := (n : Int) }
      ).sync_barrier_tgt_ 0 = _
    unfold barrier_init_
    have hne : ¬ ((c : Int) = 0) := by omega
    simp only [hne, if_false, Int.toNat_natCast, Function.update_same]
  · exact ⟨by simp [barrier_start], by simp [barrier_start]⟩
  · intro c _ i
    exact ⟨by simp [barrier_start], by simp [barrier_start], by simp [barrier_start]⟩
  · intro q _ _ hf
    rw [(hfr 0).2.2] at hf
    exact absurd rfl hf
  · intro i hi
    simp [barrier_start] at hi
  · intro h
    exact absurd rfl h
  · intro q _ hf
    rw [(hfr q).2.2] at hf
    exact absurd rfl hf
  · intro q _ h
    rcases h with h | h <;> simp [barrier_start] at h

/-- The invariant holds after every interleaving. -/
theorem barrier_inv_run {V Q : Type} (n : Nat) (sched : List Nat) (g : grid V Q)
    (hI : barrier_inv n g) : barrier_inv n (barrier_run sched g) := by
  induction sched generalizing g with
  | nil => exact hI
  | cons p rest ih => exact ih (barrier_step p g) (barrier_inv_step n g p hI)

/-- C7: `n` participants start `barrier()` with all flags 0 and the targets
of `barrier_init_`.  After any interleaving of their steps, if some
participant has returned from `barrier()` then every participant has
executed its first statement, the store to its flip flag.  With `n = 1`
the hub returns after its five steps, has evaluated no polling condition,
and all its flags are 0. -/
theorem barrier_holds_until_all_entered (V Q : Type) (n : Nat) :
    (∀ (sched : List Nat) (p q : Nat), p < n → q < n →
      (barrier_run sched (barrier_start V Q n)).pc p = barrier_pc.returned →
      (barrier_run sched (barrier_start V Q n)).pc q ≠ barrier_pc.flip) ∧
    (n = 1 →
      (barrier_run (List.replicate 5 0) (barrier_start V Q n)).pc 0 = barrier_pc.returned ∧
      (barrier_run (List.replicate 5 0) (barrier_start V Q n)).polls 0 = 0 ∧
      ∀ i, ((barrier_run (List.replicate 5 0) (barrier_start V Q n)).cores 0).sync_barrier_ i
        = 0) := by
  constructor
  · intro sched p q hp hq hr
    have hI := barrier_inv_run n sched _ (barrier_inv_start V Q n)
    rcases Nat.eq_zero_or_pos p with h0 | hpos
    · subst h0
      exact hI.hub_past (by rw [hr]; simp) (fun i => by rw [hr]; simp) q hq
    · exact hI.other_past p hpos (Or.inr hr) q hq
  · intro h1
    subst h1
    refine ⟨rfl, rfl, ?_⟩
    intro i
    show Function.update (Function.update (fun _ => (0 : Int)) 0 1) 0 0 i = 0
    by_cases hi : i = 0
    · subst hi; simp
    · simp [Function.update_noteq hi]

/-- Witness of C7: two participants; participant 1 enters first, the hub
runs to its end, participant 1 is released.  Both have returned, so both
have entered. -/
theorem barrier_holds_until_all_entered_witness :
    (barrier_run [1, 0, 0, 0, 0, 0, 0, 0, 0, 1, 1] (barrier_start Unit Unit 2)).pc 1
      = barrier_pc.returned ∧
    (barrier_run [1, 0, 0, 0, 0, 0, 0, 0, 0, 1, 1] (barrier_start Unit Unit 2)).pc 0
      ≠ barrier_pc.flip ∧
    (barrier_run (List.replicate 5 0) (barrier_start Unit Unit 1)).pc 0 = barrier_pc.returned :=
  ⟨by decide,
   (barrier_holds_until_all_entered Unit Unit 2).1 [1, 0, 0, 0, 0, 0, 0, 0, 0, 1, 1] 1 0
     (by decide) (by decide) (by decide),
   ((barrier_holds_until_all_entered Unit Unit 1).2 rfl).1⟩

end epiphany

end Bulk

namespace Bulk

namespace experimental

/-! ## Rectangular partitionings -/

theorem row_major_2_round_trip (grid_size : index_type) (q : Int) :
    row_major_2.flatten grid_size (row_major_2.unflatten grid_size q) = q := by
  simp only [row_major_2]
  simp only [if_true, one_ne_zero, if_false]
  have := Int.tdiv_add_tmod q (grid_size 1)
  rw [mul_comm] at this
  exact this

/-- C8: let `flatten` invert `unflatten` on the ids of the grid, and let the
subclass override one of the two `origin` forms.  Then for every local index
`xs` and every id `p` of the grid, `local_to_global(xs, p)` is
`origin(p) + xs` in each of the `D` components (`int` addition, which is the
exact sum when that fits an `int`), it is `local_to_global(xs, c)` for the
grid coordinate `c = unflatten(p)`, and `origin(p)` equals `origin(c)`. -/
theorem local_to_global_is_origin_plus (U : indices) (P : rectangular_partitioning)
    (xs : index_type) (p : Int)
    (hrt : ∀ q, 0 ≤ q → q < grid_volume P.G P.grid_size_ →
      U.flatten P.grid_size_ (U.unflatten P.grid_size_ q) = q)
    (hp0 : 0 ≤ p) (hp1 : p < grid_volume P.G P.grid_size_) :
    (∀ d, d < P.D → P.local_to_global U xs p d = int32 (P.origin U p d + xs d)) ∧
    (∀ d, d < P.D → -2147483648 ≤ P.origin U p d + xs d → P.origin U p d + xs d < 2147483648 →
      P.local_to_global U xs p d = P.origin U p d + xs d) ∧
    P.local_to_global U xs p = P.local_to_global_grid U xs (U.unflatten P.grid_size_ p) ∧
    P.origin U p = P.origin_grid U (U.unflatten P.grid_size_ p) := by
  have ho : P.origin U p = P.origin_grid U (U.unflatten P.grid_size_ p) := by
    unfold rectangular_partitioning.origin rectangular_partitioning.origin_grid
    cases P.origin_impl with
    | by_grid f => rfl
    | by_flat g => simp only; rw [hrt p hp0 hp1]
  have hl : ∀ d, d < P.D → P.local_to_global U xs p d = int32 (P.origin U p d + xs d) := by
    intro d hd
    unfold rectangular_partitioning.local_to_global
      rectangular_partitioning.local_to_global_grid
    rw [for_upto_update (fun d v => int32 (v + xs d)) P.D _ d, if_pos hd, ← ho]
  refine ⟨hl, ?_, rfl, ho⟩
  intro d hd h1 h2
  rw [hl d hd, int32_of_range _ h1 h2]

/-- Witness of C8: processor 4 of `block_partitioning`, at grid coordinate
`(1, 1)`, has origin `(10, 5)`; local index `(1, 2)` is global `(11, 7)`. -/
theorem local_to_global_is_origin_plus_witness :
    (∀ d, d < 2 → block_partitioning.local_to_global row_major_2 (fun d => if d = 0 then 1 else 2)
        4 d
      = block_partitioning.origin row_major_2 4 d + (if d = 0 then 1 else 2)) ∧
    block_partitioning.local_to_global row_major_2 (fun d => if d = 0 then 1 else 2) 4 0 = 11 ∧
    block_partitioning.local_to_global row_major_2 (fun d => if d = 0 then 1 else 2) 4 1 = 7 ∧
    block_partitioning.origin row_major_2 4
      = block_partitioning.origin_grid row_major_2
          (row_major_2.unflatten block_partitioning.grid_size_ 4) :=
  ⟨fun d hd =>
     (local_to_global_is_origin_plus row_major_2 block_partitioning
        (fun d => if d = 0 then 1 else 2) 4
        (fun q _ _ => row_major_2_round_trip _ q) (by decide) (by decide)).2.1 d hd
        (by interval_cases d <;> decide) (by interval_cases d <;> decide),
   by decide, by decide,
   (local_to_global_is_origin_plus row_major_2 block_partitioning
      (fun d => if d = 0 then 1 else 2) 4
      (fun q _ _ => row_major_2_round_trip _ q) (by decide) (by decide)).2.2.2⟩

end experimental

end Bulk
